import Mathlib

/-!
Verification of the cards.js in-memory game-state engine (Library / Game
classes: piles of card instances plus a tree-shaped "stacking" relation).

The embedding models the mutable JS state as a `GameState` record: card
records are addressed by their numeric card id (`next_card_id` assigns
ids sequentially, and JS code can only reach a card object through a
reference obtained from `create_card`, so ids below `nextId` stand for
the card objects a caller may hold).  A JS object field that may be
absent (`card.pile`, `card.stacked_on`, `card.stack`) is an `Option`.
DOM manipulation (the `element` fields, `insertBefore`, `appendChild`,
class lists) is presentation-only and is not modelled; neither are the
visual `face`/`back` payloads of cards.

JS functions that can throw (a `TypeError` from dereferencing an absent
pile, the `InternalError` of a self-stack) or recurse without bound
return `Option`/structured results here: `none` means the JS call does
not return normally (it throws or never terminates).  Recursive
functions take an explicit fuel argument that bounds the recursion
depth; fuel exhaustion also yields `none`, so `some` results always
agree with the JS computation.
-/

abbrev CardId := Nat

abbrev PileId := String

/-- One card instance: the mutable per-card fields of a cards.js card
object (`pile`, `stacked_on`, `stack`, `face_up`). -/
structure Card where
  pile : Option PileId
  stacked_on : Option CardId
  stack : Option (List CardId)
  face_up : Bool
deriving Repr, DecidableEq

instance : Inhabited Card := ⟨⟨none, none, none, false⟩⟩

/-- The state of one `Game` object: the `existing_cards` list (by id),
every card's fields, the pile store (`piles` holds the keys of the JS
`this.piles` object in insertion order, `items` each pile's item list),
the `pile_groups` map (`none` = key absent), and the `CURRENT_CARD_ID`
counter backing `next_card_id`. -/
structure GameState where
  cards : List CardId
  card : CardId → Card
  piles : List PileId
  items : PileId → List CardId
  pile_groups : PileId → Option (List String)
  nextId : Nat

/-- Overwrite the record of one card. -/
def GameState.setCard (s : GameState) (c : CardId) (cd : Card) : GameState :=
  { s with card := fun x => if x = c then cd else s.card x }

/-- Overwrite the item list of one pile. -/
def GameState.setItems (s : GameState) (p : PileId) (l : List CardId) : GameState :=
  { s with items := fun q => if q = p then l else s.items q }

/-- `remove_item_from_array` (cards.js helper): remove the first copy of
the target item; do nothing if the item is not in the array. -/
def remove_item_from_array [DecidableEq α] (item : α) (array : List α) : List α :=
  array.erase item

/-- JS `Array.prototype.indexOf`: the index of the first occurrence, or
-1 when the item is absent. -/
def jsIndexOf [DecidableEq α] (l : List α) (x : α) : Int :=
  if x ∈ l then (l.indexOf x : Int) else -1

/-- JS `Array.prototype.splice(start, 0, x)`: insert `x` at `start`,
where a negative start counts from the end and a start beyond the length
is clamped to the length. -/
def spliceInsert (l : List α) (k : Int) (x : α) : List α :=
  let kk : Nat := if k < 0 then (l.length + k).toNat else min k.toNat l.length
  l.insertIdx kk x

/-- The `card.stack` list of direct stack children, reading an absent
field as the empty list. -/
def stackList (s : GameState) (c : CardId) : List CardId :=
  ((s.card c).stack).getD []

/-- `Game.prototype._remove_card_from_pile`: remove a card from its pile
without affecting its stacking situation.  `none` models the TypeError
raised when `card.pile` names a pile that is not in `this.piles` (a
dangling pile reference). -/
def _remove_card_from_pile (s : GameState) (c : CardId) : Option GameState :=
  match (s.card c).pile with
  | none => some s
  | some p =>
    if p ∈ s.piles then
      some ((s.setItems p (remove_item_from_array c (s.items p))).setCard c
        { s.card c with pile := none })
    else none

/-- `Game.prototype.has_stack_ancestor`: true if `anc` appears among the
stack ancestors of `c` (which include `c` itself), following the
`stacked_on` chain.  Fueled: the JS recursion never terminates on a
stacking cycle that avoids both `anc` and a chain end. -/
def has_stack_ancestor : Nat → GameState → CardId → CardId → Option Bool
  | 0, _, _, _ => none
  | n+1, s, c, anc =>
    if c = anc then some true
    else
      match (s.card c).stacked_on with
      | some p => has_stack_ancestor n s p anc
      | none => some false

/-- `Game.prototype.stack_root`: follow `stacked_on` links to the base
of the stack; if the traversal comes back to the original card, return
that card's immediate `stacked_on`.  Fueled: the JS recursion never
terminates when the chain enters a cycle that does not pass through the
starting card. -/
def stack_root : Nat → GameState → CardId → Option CardId → Option CardId
  | 0, _, _, _ => none
  | n+1, s, c, orig =>
    match (s.card c).stacked_on with
    | none => some c
    | some p =>
      if orig = some c then some p
      else stack_root n s p (some (orig.getD c))

/-- `Game.prototype._stack_cards`: set `card_to_stack.stacked_on` and
append `card_to_stack` to `stack_onto.stack`, creating the stack field
if it was absent.  Never touches pile state. -/
def _stack_cards (s : GameState) (card_to_stack stack_onto : CardId) : GameState :=
  let s1 := s.setCard card_to_stack { s.card card_to_stack with stacked_on := some stack_onto }
  match (s1.card stack_onto).stack with
  | some l => s1.setCard stack_onto { s1.card stack_onto with stack := some (l ++ [card_to_stack]) }
  | none => s1.setCard stack_onto { s1.card stack_onto with stack := some [card_to_stack] }

/-- `Game.prototype._unstack_card`: clear `card.stacked_on`, remove the
card from its former parent's `stack`, and delete that `stack` field
when it becomes empty.  Does nothing if the card is not stacked.  `none`
models the TypeError raised when the parent has no `stack` field (an
inconsistent state). -/
def _unstack_card (s : GameState) (c : CardId) : Option GameState :=
  match (s.card c).stacked_on with
  | none => some s
  | some q =>
    let s1 := s.setCard c { s.card c with stacked_on := none }
    match (s1.card q).stack with
    | none => none
    | some l =>
      let l' := remove_item_from_array c l
      if l'.length = 0 then
        some (s1.setCard q { s1.card q with stack := none })
      else
        some (s1.setCard q { s1.card q with stack := some l' })

/-- Loop of `Game.prototype._remove_stack_from_pile` over a list of
cards, with `rm` handling the recursion into each card's stack: remove
each card of the list from its pile, then everything stacked on it. -/
def removeStackList (rm : GameState → List CardId → Option GameState) :
    GameState → List CardId → Option GameState
  | s, [] => some s
  | s, c :: rest => do
    let s1 ← _remove_card_from_pile s c
    let s2 ← rm s1 (stackList s1 c)
    removeStackList rm s2 rest

/-- Fueled removal of stacks from piles; the fuel bounds the depth of
the stack tree (one JS recursion level per unit). -/
def removeStackAux : Nat → GameState → List CardId → Option GameState
  | 0, s, l => match l with | [] => some s | _ :: _ => none
  | n+1, s, l => removeStackList (removeStackAux n) s l

/-- `Game.prototype._remove_stack_from_pile`. -/
def _remove_stack_from_pile (n : Nat) (s : GameState) (c : CardId) : Option GameState :=
  removeStackAux n s [c]

/-- The loop at the end of `insert_stack_into_pile_after` over the
direct stack children, with `ins` handling the recursive insertion. -/
def insertChildrenGo (ins : GameState → CardId → CardId → Option GameState) :
    GameState → List CardId → CardId → Option GameState
  | s, [], _ => some s
  | s, x :: rest, par => do
    let s1 ← ins s x par
    insertChildrenGo ins s1 rest par

/-- `Game.prototype.insert_stack_into_pile_after`: insert `c` and the
cards stacked on it into the pile of `insert_after`, directly after
`insert_after` and everything stacked on it.  If `insert_after` has `c`
as a stack ancestor the operation reports an error on the console and
does nothing (the state is returned unchanged).  `none` models a thrown
TypeError (inserting after a pile-less card or into a dangling pile) or
fuel exhaustion of the JS recursion. -/
def insert_stack_into_pile_after : Nat → GameState → CardId → CardId → Option GameState
  | 0, _, _, _ => none
  | n+1, s, c, insert_after => do
    let anc ← has_stack_ancestor n s insert_after c
    if anc then
      some s
    else do
      let s1 ← removeStackAux n s [c]
      Option.bind
        (match (s1.card c).stacked_on with
         | some q =>
           if (s1.card q).pile ≠ (s1.card insert_after).pile then _unstack_card s1 c
           else some s1
         | none => some s1)
        (fun s2 =>
          match (s2.card insert_after).pile with
          | none => none
          | some p =>
            if p ∈ s2.piles then
              let base_idx : Int := jsIndexOf (s2.items p) insert_after
              let insert_at : Int := base_idx + 1 + (stackList s2 insert_after).length
              let s3 := s2.setItems p (spliceInsert (s2.items p) insert_at c)
              let s4 := s3.setCard c { s3.card c with pile := some p }
              match (s4.card c).stack with
              | none => some s4
              | some l => insertChildrenGo (insert_stack_into_pile_after n) s4 l c
            else none)

/-- The child-insertion loop at a given fuel level. -/
def insertChildren (n : Nat) : GameState → List CardId → CardId → Option GameState :=
  insertChildrenGo (insert_stack_into_pile_after n)

/-- The loop inside `put_stack_on_pile` over the direct stack children,
with `ps` handling the recursive move. -/
def putStackGo (ps : GameState → CardId → PileId → Option GameState) :
    GameState → List CardId → PileId → Option GameState
  | s, [], _ => some s
  | s, x :: rest, pid => do
    let s1 ← ps s x pid
    putStackGo ps s1 rest pid

/-- `Game.prototype.put_stack_on_pile`: move a card and everything
stacked on it (recursively) on top of the given pile; sever the link to
its former parent if that parent ends up in a different pile. -/
def put_stack_on_pile : Nat → GameState → CardId → PileId → Option GameState
  | 0, _, _, _ => none
  | n+1, s, c, pile_id => do
    let s1 ← removeStackAux n s [c]
    if pile_id ∈ s1.piles then
      let s2 := s1.setCard c { s1.card c with pile := some pile_id }
      let s3 := s2.setItems pile_id (s2.items pile_id ++ [c])
      Option.bind
        (match (s3.card c).stack with
         | none => some s3
         | some l => putStackGo (put_stack_on_pile n) s3 l pile_id)
        (fun s4 =>
          match (s4.card c).stacked_on with
          | some q =>
            if (s4.card q).pile ≠ (s4.card c).pile then _unstack_card s4 c else some s4
          | none => some s4)
    else none

/-- The child-move loop at a given fuel level. -/
def putStackChildren (n : Nat) : GameState → List CardId → PileId → Option GameState :=
  putStackGo (put_stack_on_pile n)

/-- `Game.prototype.unstack_card`: detach the card from its parent and,
if it was in a pile and the parent still has other children, re-insert
it into that pile directly after the remaining stack. -/
def unstack_card (n : Nat) (s : GameState) (c : CardId) : Option GameState := do
  let pile := (s.card c).pile
  let stacked_on := (s.card c).stacked_on
  let s1 ← _unstack_card s c
  match pile, stacked_on with
  | some _, some q =>
    match (s1.card q).stack with
    | some l => if l.length ≠ 0 then insert_stack_into_pile_after n s1 c q else some s1
    | none => some s1
  | _, _ => some s1

/-- Sequential `_unstack_card` over a list of cards. -/
def unstackList : GameState → List CardId → Option GameState
  | s, [] => some s
  | s, x :: rest => do
    let s1 ← _unstack_card s x
    unstackList s1 rest

/-- `Game.prototype.unstack_all_from`: detach every direct child of the
base card, iterating over a snapshot (`slice()`) of its stack list. -/
def unstack_all_from (s : GameState) (stack_base : CardId) : Option GameState :=
  match (s.card stack_base).stack with
  | none => some s
  | some l => unstackList s l

/-- `Game.prototype.remove_card_from_pile`: unstack everything stacked
on the card, unstack the card itself, then remove it from its pile. -/
def remove_card_from_pile (n : Nat) (s : GameState) (c : CardId) : Option GameState := do
  let s1 ← unstack_all_from s c
  let s2 ← unstack_card n s1 c
  _remove_card_from_pile s2 c

/-- `Game.prototype.remove_stack_from_pile`: detach the card from its
own parent, then remove it and its whole dependent stack from their
piles (stacking among the removed cards is kept). -/
def remove_stack_from_pile (n : Nat) (s : GameState) (c : CardId) : Option GameState := do
  let s1 ← _unstack_card s c
  removeStackAux n s1 [c]

/-- `Game.prototype.insert_card_into_pile_after`: strip the card of all
stacking (as child and as parent), then insert it after the target. -/
def insert_card_into_pile_after (n : Nat) (s : GameState) (c insert_after : CardId) :
    Option GameState := do
  let s1 ← _unstack_card s c
  let s2 ← unstack_all_from s1 c
  insert_stack_into_pile_after n s2 c insert_after

/-- `Game.prototype.put_card_on_pile`: strip the card of all stacking,
then put it alone on top of the pile. -/
def put_card_on_pile (n : Nat) (s : GameState) (c : CardId) (pile_id : PileId) :
    Option GameState := do
  let s1 ← _unstack_card s c
  let s2 ← unstack_all_from s1 c
  put_stack_on_pile n s2 c pile_id

/-- Result of `stack_card_on_card`: either a normal return or a thrown
`InternalError`, each carrying the state at that moment. -/
inductive OpResult where
  | ok (s : GameState)
  | err (s : GameState)

/-- The state carried by an `OpResult`. -/
def OpResult.state : OpResult → GameState
  | .ok s => s
  | .err s => s

/-- `Game.prototype.stack_card_on_card`: throw on a self-stack (before
any mutation), otherwise detach the card, move it (and its dependents)
after the target inside the target's pile (or out of every pile when the
target is pile-less), and finally attach it to the target. -/
def stack_card_on_card (n : Nat) (s : GameState) (card_to_stack stack_onto : CardId) :
    Option OpResult :=
  if card_to_stack = stack_onto then some (.err s)
  else do
    let s1 ← _unstack_card s card_to_stack
    let s2 ←
      match (s1.card stack_onto).pile with
      | some _ => insert_stack_into_pile_after n s1 card_to_stack stack_onto
      | none => removeStackAux n s1 [card_to_stack]
    some (.ok (_stack_cards s2 card_to_stack stack_onto))

/-- Sequential `unstack_all_from` over a list of cards (the first loop
of `shuffle_pile`). -/
def unstackAllLoop : GameState → List CardId → Option GameState
  | s, [] => some s
  | s, c :: rest => do
    let s1 ← unstack_all_from s c
    unstackAllLoop s1 rest

/-- One Fisher-Yates swap: exchange the items at indices `i` and `j`. -/
def swapIdx (l : List CardId) (i j : Nat) : List CardId :=
  match l.get? i, l.get? j with
  | some a, some b => (l.set i b).set j a
  | _, _ => l

/-- The Fisher-Yates loop of `shuffle_pile`, iterating the index `i`
from the last position down to 1 and swapping with index `r i`
(`Math.floor(Math.random() * (i + 1))`, always between 0 and `i`). -/
def fyAux : List CardId → (Nat → Nat) → Nat → List CardId
  | l, _, 0 => l
  | l, r, i+1 => fyAux (swapIdx l (i+1) (r (i+1))) r i

/-- The in-place permutation applied by `shuffle_pile`. -/
def fisherYates (l : List CardId) (r : Nat → Nat) : List CardId :=
  fyAux l r (l.length - 1)

/-- `Game.prototype.shuffle_pile`: sever the direct stacking children of
every card in the pile, then permute the item list with Fisher-Yates.
The function `r` supplies the random index drawn at each step. -/
def shuffle_pile (s : GameState) (pile_id : PileId) (r : Nat → Nat) : Option GameState :=
  if pile_id ∈ s.piles then do
    let s1 ← unstackAllLoop s (s.items pile_id)
    some (s1.setItems pile_id (fisherYates (s1.items pile_id) r))
  else none

/-- `Game.prototype.flip_card`: with no second argument flip `face_up`,
otherwise set it to the given value.  Only CSS classes change besides
the `face_up` field. -/
def flip_card (s : GameState) (c : CardId) (put_face_up : Option Bool) : GameState :=
  match put_face_up with
  | none => s.setCard c { s.card c with face_up := !(s.card c).face_up }
  | some b => s.setCard c { s.card c with face_up := b }

/-- `Game.prototype.create_card`: allocate the next card id, initialise
a fresh face-down (or face-up) card record with no pile and no stacking,
and append it to `existing_cards`.  The visual face payload taken from
the library is not modelled.  Returns the new state and the new id. -/
def create_card (s : GameState) (face_up_or_false : Bool) : GameState × CardId :=
  let id := s.nextId
  let s1 := s.setCard id { pile := none, stacked_on := none, stack := none,
                           face_up := face_up_or_false }
  ({ s1 with cards := s1.cards ++ [id], nextId := id + 1 }, id)

/-- `Game.prototype.create_pile`: register a pile with a fresh empty
item list (re-creating an existing id resets its item list, as the JS
code overwrites the entry). -/
def create_pile (s : GameState) (p : PileId) : GameState :=
  { s with piles := if p ∈ s.piles then s.piles else s.piles ++ [p],
           items := fun q => if q = p then [] else s.items q }

/-- The `for (let card of this.piles[pile_id].items)` loop of
`delete_pile`, with JS array-iterator semantics: the index advances by
one each step and is checked against the CURRENT length of the live
array, which the loop body shortens via `_remove_card_from_pile`.  The
fuel only bounds the number of iterations (the loop always terminates in
JS because the index grows and the array never does). -/
def deletePileLoop : Nat → GameState → PileId → Nat → Option GameState
  | 0, _, _, _ => none
  | n+1, s, p, k =>
    if h : k < (s.items p).length then do
      let c := (s.items p).get ⟨k, h⟩
      let s1 ← _remove_card_from_pile s c
      deletePileLoop n s1 p (k+1)
    else some s

/-- `Game.prototype.delete_pile`: iterate over the pile's live item list
removing cards, then delete the pile's entry from `this.piles` and
`this.pile_groups`. -/
def delete_pile (s : GameState) (p : PileId) : Option GameState :=
  if p ∈ s.piles then do
    let s1 ← deletePileLoop ((s.items p).length + 1) s p 0
    some { s1 with piles := s1.piles.erase p,
                   pile_groups := fun q => if q = p then none else s1.pile_groups q }
  else none

/-- `Game.prototype.new_game` (engine part): drop all card references
and empty every pile's item list.  The external `cleanup`/`setup`
callbacks issue ordinary engine calls and are modelled as further
steps. -/
def new_game (s : GameState) : GameState :=
  { s with cards := [], items := fun _ => [] }

/-- `Game.prototype.position_in_pile`: the index of the card in its
pile, or `none` (JS `undefined`) when it is in no pile. -/
def position_in_pile (s : GameState) (c : CardId) : Option Int :=
  match (s.card c).pile with
  | none => none
  | some p => some (jsIndexOf (s.items p) c)

/-- `Game.prototype.position_in_stack`: the index of the card within its
parent's stack list.  `some none` is the JS `undefined` returned for an
unstacked card; `none` is the TypeError raised when the parent lacks a
`stack` field. -/
def position_in_stack (s : GameState) (c : CardId) : Option (Option Int) :=
  match (s.card c).stacked_on with
  | none => some none
  | some q =>
    match (s.card q).stack with
    | none => none
    | some l => some (some (jsIndexOf l c))

/-- `Game.prototype.card_is_on_top_of_stack`.  The first two branches
follow the source; in the remaining case (stacked, no children) the
source evaluates `position_in_stack(card)` and then reads
`base.stack.length` where no variable `base` is in scope anywhere in the
module, so the JS call throws a ReferenceError: that branch is `none`. -/
def card_is_on_top_of_stack (s : GameState) (c : CardId) : Option Bool :=
  if (s.card c).stack = none ∧ (s.card c).stacked_on = none then some true
  else if (s.card c).stack ≠ none then some false
  else none

/-- The ten public MoveEngine operations, as one step type.  The
`shufflePile` constructor carries the random draws consumed by the
shuffle. -/
inductive Move where
  | stackCard (a b : CardId)
  | insertStack (a b : CardId)
  | insertCard (a b : CardId)
  | putCard (a : CardId) (p : PileId)
  | putStack (a : CardId) (p : PileId)
  | removeCard (a : CardId)
  | removeStack (a : CardId)
  | unstackCard (a : CardId)
  | unstackAll (a : CardId)
  | shufflePile (p : PileId) (r : Nat → Nat)

/-- Execute one public MoveEngine operation.  For `stackCard` the state
carried by a thrown `InternalError` (necessarily the unchanged input
state) is the state after the step, since the exception propagates to
the caller with the game state intact. -/
def MoveStep (n : Nat) (m : Move) (s : GameState) : Option GameState :=
  match m with
  | .stackCard a b => (stack_card_on_card n s a b).map OpResult.state
  | .insertStack a b => insert_stack_into_pile_after n s a b
  | .insertCard a b => insert_card_into_pile_after n s a b
  | .putCard a p => put_card_on_pile n s a p
  | .putStack a p => put_stack_on_pile n s a p
  | .removeCard a => remove_card_from_pile n s a
  | .removeStack a => remove_stack_from_pile n s a
  | .unstackCard a => unstack_card n s a
  | .unstackAll a => unstack_all_from s a
  | .shufflePile p r => shuffle_pile s p r

/-- The card arguments a caller passes to a move are references to card
objects, so their ids are below the id counter. -/
def Move.argsOk : Move → GameState → Bool
  | .stackCard a b, s => decide (a < s.nextId) && decide (b < s.nextId)
  | .insertStack a b, s => decide (a < s.nextId) && decide (b < s.nextId)
  | .insertCard a b, s => decide (a < s.nextId) && decide (b < s.nextId)
  | .putCard a _, s => decide (a < s.nextId)
  | .putStack a _, s => decide (a < s.nextId)
  | .removeCard a, s => decide (a < s.nextId)
  | .removeStack a, s => decide (a < s.nextId)
  | .unstackCard a, s => decide (a < s.nextId)
  | .unstackAll a, s => decide (a < s.nextId)
  | .shufflePile _ _, _ => true

/-- The empty state of a freshly constructed `Game` with no piles. -/
def initState : GameState :=
  { cards := [], card := fun _ => default, piles := [],
    items := fun _ => [], pile_groups := fun _ => none, nextId := 0 }

/-- The game states reachable through the engine's public interface:
setup operations (pile creation and deletion, card creation, flips, the
`new_game` reset) and the public MoveEngine operations with card
arguments the caller can actually reference. -/
inductive Reachable : GameState → Prop where
  | init : Reachable initState
  | createPile {s} (p : PileId) : Reachable s → Reachable (create_pile s p)
  | deletePile {s s'} (p : PileId) : Reachable s → delete_pile s p = some s' → Reachable s'
  | createCard {s} (fu : Bool) : Reachable s → Reachable (create_card s fu).1
  | flipCard {s} (c : CardId) (b : Option Bool) : Reachable s → Reachable (flip_card s c b)
  | newGame {s} : Reachable s → Reachable (new_game s)
  | move {s s'} (n : Nat) (m : Move) : Reachable s → m.argsOk s = true →
      MoveStep n m s = some s' → Reachable s'

/-!  The card-type library (`Library` class).  Only the fields the
claims touch are modelled; the visual `face` payload of a registered
type is dropped, and the property bag is an arbitrary type `π`. -/

/-- A `Library` object: registered card types in insertion order with
their property bags, and the named groups with their frozen member
lists (`none` = key absent in the JS object). -/
structure Library (π : Type) where
  card_data : String → Option π
  all_cards : List String
  group_data : String → Option (List String)
  all_groups : List String

/-- `Library.prototype.register_card`: fail on a duplicate type id,
otherwise record the type.  (This check uses the correct JS form
`this.card_data.hasOwnProperty(card_type_id)`.) -/
def register_card (lib : Library π) (card_type_id : String) (props : π) :
    Except String (Library π) :=
  if (lib.card_data card_type_id).isSome then
    .error ("Card ID '" ++ card_type_id ++ "' is already registered in this library.")
  else
    .ok { lib with all_cards := lib.all_cards ++ [card_type_id],
                   card_data := fun t => if t = card_type_id then some props
                                         else lib.card_data t }

/-- The value of the guard expression
`Object.hasOwnProperty(this.group_data, group_id)` in
`Library.prototype.create_group`.  `hasOwnProperty` is called with the
`Object` constructor as receiver and `this.group_data` as its single
used argument, so it asks whether `Object` itself has an own property
named `String(this.group_data)`, i.e. "[object Object]" — which is
false for every library and every group id. -/
def js_hasOwnProperty_on_Object_with_group_data : Bool := false

/-- `Library.prototype.create_group`: the duplicate-group guard (see
`js_hasOwnProperty_on_Object_with_group_data`), then filter the
registered types in registration order through the predicate and store
the resulting member list, overwriting any previous entry. -/
def create_group (lib : Library π) (group_id : String) (filter : π → Bool) :
    Except String (Library π) :=
  if js_hasOwnProperty_on_Object_with_group_data then
    .error ("Group '" ++ group_id ++ "' already exists.")
  else
    let group_members := lib.all_cards.filter (fun cid =>
      match lib.card_data cid with
      | some pr => filter pr
      | none => false)
    .ok { lib with all_groups := lib.all_groups ++ [group_id],
                   group_data := fun g => if g = group_id then some group_members
                                          else lib.group_data g }

/-!  Invariants and relations used in the theorems. -/

/-- One step up the stacking tree: `x` is directly stacked on `y`. -/
def stRel (s : GameState) (x y : CardId) : Prop :=
  (s.card x).stacked_on = some y

/-- The round-trip stacking invariant: `x.stacked_on == y` exactly when
`y.stack` contains `x`. -/
def StackOk (s : GameState) : Prop :=
  ∀ x y, (s.card x).stacked_on = some y ↔ x ∈ stackList s y

/-- A present `stack` field is a nonempty duplicate-free list. -/
def StacksWf (s : GameState) : Prop :=
  ∀ y l, (s.card y).stack = some l → l ≠ [] ∧ l.Nodup

/-- Every pile's item list is duplicate-free. -/
def ItemsNodup (s : GameState) : Prop :=
  ∀ q, (s.items q).Nodup

/-- Pile membership matches the `pile` back-reference, and every pile
reference points at a pile of the store. -/
def PileOk (s : GameState) : Prop :=
  ∀ c q, (c ∈ s.items q ↔ (s.card c).pile = some q) ∧
    ((s.card c).pile = some q → q ∈ s.piles)

/-- Ids at or above the allocation counter are referenced by no
`stacked_on` field and belong to no stack list, so a freshly allocated
id is unentangled. -/
def IdOk (s : GameState) : Prop :=
  ∀ x, s.nextId ≤ x → ∀ y, (s.card y).stacked_on ≠ some x ∧ x ∉ stackList s y

/-- Acyclicity of the stacking relation, witnessed by a rank function
that strictly increases along `stacked_on` links. -/
def RankOk (s : GameState) : Prop :=
  ∃ rk : CardId → Nat, ∀ x y, stRel s x y → rk x < rk y

/-- The stacking part of the state invariant, preserved by every engine
operation (used for the reachability induction). -/
def EngineInv (s : GameState) : Prop :=
  StackOk s ∧ StacksWf s ∧ IdOk s

/-- The full well-formedness of a game state at rest. -/
def WfState (s : GameState) : Prop :=
  StackOk s ∧ StacksWf s ∧ ItemsNodup s ∧ PileOk s ∧ RankOk s

/-- Between two states, every card's `stacked_on` is either unchanged or
cleared: engine steps between a detach and the final attach never set a
parent link. -/
def StackedMono (s u : GameState) : Prop :=
  ∀ x, (u.card x).stacked_on = (s.card x).stacked_on ∨ (u.card x).stacked_on = none

/-- Transition property composed along the primitive steps of every
operation: the stacking invariant transfers, parent links only get
cleared, and the id counter is untouched. -/
def Pres (s u : GameState) : Prop :=
  (EngineInv s → EngineInv u) ∧ StackedMono s u ∧ u.nextId = s.nextId

/-- `x` lies in the stack subtree rooted at `c`: the `stacked_on` chain
from `x` reaches `c`. -/
def Desc (s : GameState) (c x : CardId) : Prop :=
  Relation.ReflTransGen (stRel s) x c

/-- Termination of a `stack_root` call, over all fuels. -/
def stack_root_terminates (s : GameState) (c : CardId) : Prop :=
  ∃ n r, stack_root n s c none = some r

/-- The two stacking fields agree between two states (steps that touch
only pile membership). -/
def StackFieldsEq (s u : GameState) : Prop :=
  ∀ x, (u.card x).stacked_on = (s.card x).stacked_on ∧ (u.card x).stack = (s.card x).stack

/-- Transition property of every engine step between a detach and the
final attach of an operation: the stacking invariants transfer, parent
links are only ever cleared, stack lists only shrink, and the id counter
is untouched. -/
def UnstackLike (s u : GameState) : Prop :=
  (StackOk s → StacksWf s → StackOk u ∧ StacksWf u) ∧
  (EngineInv s → EngineInv u) ∧
  StackedMono s u ∧
  (∀ x y, y ∈ stackList u x → y ∈ stackList s x) ∧
  u.nextId = s.nextId

/-- Frame for steps that touch only stacking fields: pile membership,
the card store, pile back-references and face state are untouched. -/
def PileFrame (s u : GameState) : Prop :=
  u.items = s.items ∧ u.piles = s.piles ∧ u.cards = s.cards ∧
  (∀ x, (u.card x).pile = (s.card x).pile) ∧
  (∀ x, (u.card x).face_up = (s.card x).face_up)

/-- Membership of `x` in the union of the stack subtrees rooted at the
cards of `l`. -/
def DescList (t : GameState) (l : List CardId) (x : CardId) : Prop :=
  ∃ c ∈ l, Desc t c x

/-- Rank data witnessing acyclicity of the stacking relation together
with the id bound `N` on every stacking reference (in a well-formed
state `N` is the allocation counter). -/
def RankData (t : GameState) (rk : CardId → Nat) (N : Nat) : Prop :=
  (∀ x y, stRel t x y → rk x < rk y) ∧
  (∀ y x, (t.card y).stacked_on = some x → x < N) ∧
  (∀ y x, x ∈ stackList t y → x < N)

/-- Number of candidate cards strictly below `c` in rank: a bound on the
depth of the stack subtree under `c`. -/
def downcnt (rk : CardId → Nat) (N : Nat) (c : CardId) : Nat :=
  ((Finset.range N).filter (fun x => rk x < rk c)).card

/-- Number of candidate cards strictly above `c` in rank: a bound on the
length of the `stacked_on` chain from `c`. -/
def upcnt (rk : CardId → Nat) (N : Nat) (c : CardId) : Nat :=
  ((Finset.range N).filter (fun x => rk c < rk x)).card

/-- Specification of one recursive call of `insert_stack_into_pile_after`
in the clean mode used while re-inserting a removed stack: the inserted
card is linked under `par`, its whole subtree is outside every pile, and
`par` sits in pile `p` at a known position; the call then succeeds, only
splices cards of the subtree strictly after `par`, and preserves the
stacking fields, the pile store and all well-formedness invariants. -/
def InsertCleanSpec (rk : CardId → Nat) (N : Nat) (n : Nat) : Prop :=
  ∀ (t : GameState) (c par : CardId) (p : PileId) (A B : List CardId),
    RankData t rk N → StackOk t → StacksWf t → PileOk t → ItemsNodup t →
    stRel t c par →
    (∀ y, Desc t c y → (t.card y).pile = none) →
    (t.card par).pile = some p →
    p ∈ t.piles →
    t.items p = A ++ par :: B →
    par ∉ A →
    downcnt rk N c + N + 3 ≤ n →
    ∃ u B2, insert_stack_into_pile_after n t c par = some u ∧
      StackFieldsEq t u ∧ u.piles = t.piles ∧ u.nextId = t.nextId ∧
      PileOk u ∧ ItemsNodup u ∧
      u.items p = A ++ par :: B2 ∧
      (∀ x, x ∈ B2 → x ∈ B ∨ Desc t c x) ∧
      (∀ q, q ≠ p → u.items q = t.items q) ∧
      (∀ x, ¬ Desc t c x → (u.card x).pile = (t.card x).pile)

/-!  Concrete states used by counterexamples and witnesses. -/

/-- Two cards in pile "p" with card 1 stacked on card 0 (the layout of
the repo's own stacking unit test after `stack_card_on_card(c2, c1)`). -/
def exStackedPair : GameState :=
  { cards := [0, 1],
    card := fun x =>
      match x with
      | 0 => { pile := some "p", stacked_on := none, stack := some [1], face_up := false }
      | 1 => { pile := some "p", stacked_on := some 0, stack := none, face_up := false }
      | _ => default,
    piles := ["p"],
    items := fun q => if q = "p" then [0, 1] else [],
    pile_groups := fun _ => none,
    nextId := 2 }

/-- Card 1 alone in pile "p", card 0 pile-less and unstacked. -/
def exFreeCard : GameState :=
  { cards := [0, 1],
    card := fun x =>
      match x with
      | 0 => { pile := none, stacked_on := none, stack := none, face_up := false }
      | 1 => { pile := some "p", stacked_on := none, stack := none, face_up := false }
      | _ => default,
    piles := ["p"],
    items := fun q => if q = "p" then [1] else [],
    pile_groups := fun _ => none,
    nextId := 2 }

/-- Two unstacked cards 0 and 1 in pile "p". -/
def exTwoInPile : GameState :=
  { cards := [0, 1],
    card := fun x =>
      match x with
      | 0 => { pile := some "p", stacked_on := none, stack := none, face_up := false }
      | 1 => { pile := some "p", stacked_on := none, stack := none, face_up := false }
      | _ => default,
    piles := ["p"],
    items := fun q => if q = "p" then [0, 1] else [],
    pile_groups := fun q => if q = "p" then some ["g"] else none,
    nextId := 2 }

/-- A manufactured cyclic `stacked_on` configuration whose cycle does
not pass through card 0: the chain is 0 → 1 → 2 → 1 → 2 → ... -/
def rhoState : GameState :=
  { cards := [0, 1, 2],
    card := fun x =>
      match x with
      | 0 => { pile := none, stacked_on := some 1, stack := none, face_up := false }
      | 1 => { pile := none, stacked_on := some 2, stack := none, face_up := false }
      | 2 => { pile := none, stacked_on := some 1, stack := none, face_up := false }
      | _ => default,
    piles := [], items := fun _ => [], pile_groups := fun _ => none, nextId := 3 }

/-- An acyclic chain 0 → 1 → 2 with unstacked base 2. -/
def chainState : GameState :=
  { cards := [0, 1, 2],
    card := fun x =>
      match x with
      | 0 => { pile := none, stacked_on := some 1, stack := none, face_up := false }
      | 1 => { pile := none, stacked_on := some 2, stack := some [0], face_up := false }
      | 2 => { pile := none, stacked_on := none, stack := some [1], face_up := false }
      | _ => default,
    piles := [], items := fun _ => [], pile_groups := fun _ => none, nextId := 3 }

/-- The state after `delete_pile(exTwoInPile, "p")`. -/
def exDeleted : GameState := (delete_pile exTwoInPile "p").getD initState

/-- The state after `stack_card_on_card(0, 1)` in `exStackedPair`, where
card 1 (the target) is stacked on card 0 (the card being stacked). -/
def cxStack1 : GameState :=
  ((stack_card_on_card 10 exStackedPair 0 1).map OpResult.state).getD initState

/-- The state after the follow-up `unstack_card(0)`. -/
def cxStack2 : GameState := (unstack_card 10 cxStack1 0).getD initState

/-- Reachable state for the consistency witness: pile "p" created and
two cards created. -/
def wReach0 : GameState := (create_card (create_card (create_pile initState "p") false).1 false).1

/-- ... card 0 put on pile "p". -/
def wReach1 : GameState := (MoveStep 5 (.putCard 0 "p") wReach0).getD initState

/-- ... then card 1 stacked on card 0. -/
def wReach2 : GameState := (MoveStep 5 (.stackCard 1 0) wReach1).getD initState

/-- The state after `stack_card_on_card(0, 1)` in `exFreeCard`. -/
def wFree1 : GameState :=
  ((stack_card_on_card 10 exFreeCard 0 1).map OpResult.state).getD initState

/-- ... and after the follow-up `unstack_card(0)`. -/
def wFree2 : GameState := (unstack_card 10 wFree1 0).getD initState

/-- The state after shuffling pile "p" of `exStackedPair` with every
random draw equal to 0. -/
def wShuffled : GameState := (shuffle_pile exStackedPair "p" (fun _ => 0)).getD initState

/-!  Basic lemmas about the state update helpers. -/

theorem setCard_card_self (s : GameState) (c : CardId) (cd : Card) :
    ((s.setCard c cd).card c) = cd := by
  simp [GameState.setCard]

theorem setCard_card_ne (s : GameState) {c x : CardId} (cd : Card) (h : x ≠ c) :
    ((s.setCard c cd).card x) = s.card x := by
  simp [GameState.setCard, h]

theorem setCard_items (s : GameState) (c : CardId) (cd : Card) :
    (s.setCard c cd).items = s.items := rfl

theorem setCard_piles (s : GameState) (c : CardId) (cd : Card) :
    (s.setCard c cd).piles = s.piles := rfl

theorem setCard_nextId (s : GameState) (c : CardId) (cd : Card) :
    (s.setCard c cd).nextId = s.nextId := rfl

theorem setItems_card (s : GameState) (p : PileId) (l : List CardId) :
    (s.setItems p l).card = s.card := rfl

theorem setItems_items_self (s : GameState) (p : PileId) (l : List CardId) :
    (s.setItems p l).items p = l := by
  simp [GameState.setItems]

theorem setItems_items_ne (s : GameState) {p q : PileId} (l : List CardId) (h : q ≠ p) :
    (s.setItems p l).items q = s.items q := by
  simp [GameState.setItems, h]

theorem setItems_piles (s : GameState) (p : PileId) (l : List CardId) :
    (s.setItems p l).piles = s.piles := rfl

theorem setItems_nextId (s : GameState) (p : PileId) (l : List CardId) :
    (s.setItems p l).nextId = s.nextId := rfl

/-!  C2: self-stack. -/

/-- C2.  For every state and every card `a`, `stack_card_on_card(a, a)`
throws (signals an error) before any mutation: the thrown result carries
exactly the input state, so every pile's item list and every card's
`pile`, `stacked_on` and `stack` fields are as before the call. -/
theorem self_stack_throws_state_unchanged (n : Nat) (s : GameState) (a : CardId) :
    stack_card_on_card n s a a = some (.err s) := by
  simp [stack_card_on_card]

/-!  C10: flip_card. -/

/-- C10.  `flip_card(card)` negates `face_up` and `flip_card(card, b)`
sets it to `b`; in both cases only that card's `face_up` field changes:
every pile's item list and order, the pile store, and every card's
`pile`, `stacked_on` and `stack` fields (and other cards entirely) are
unchanged. -/
theorem flip_card_only_changes_face_up (s : GameState) (c : CardId) (o : Option Bool) :
    ((flip_card s c o).card c).face_up =
      (match o with | none => !(s.card c).face_up | some b => b) ∧
    (∀ x, ((flip_card s c o).card x).pile = (s.card x).pile ∧
      ((flip_card s c o).card x).stacked_on = (s.card x).stacked_on ∧
      ((flip_card s c o).card x).stack = (s.card x).stack) ∧
    (∀ x, x ≠ c → (flip_card s c o).card x = s.card x) ∧
    (flip_card s c o).items = s.items ∧ (flip_card s c o).piles = s.piles := by
  refine ⟨?_, ?_, ?_, ?_, ?_⟩
  · cases o <;> simp [flip_card, GameState.setCard]
  · intro x
    by_cases hx : x = c
    · subst hx; cases o <;> simp [flip_card, GameState.setCard]
    · cases o <;> simp [flip_card, GameState.setCard, hx]
  · intro x hx
    cases o <;> simp [flip_card, GameState.setCard, hx]
  · cases o <;> rfl
  · cases o <;> rfl

/-!  C7: create_group duplicate detection. -/

/-- C7.  The duplicate-group guard of `create_group` never fires: after
a group `g` has been created, creating it again succeeds instead of
failing, and silently overwrites the stored member list (the code's own
doc comment requires the id to be unique and the function contains an
unreachable `throw`). -/
theorem create_group_duplicate_overwrites {π : Type} (lib : Library π) (g : String)
    (f1 f2 : π → Bool) :
    ∃ lib1 lib2, create_group lib g f1 = .ok lib1 ∧ g ∈ lib1.all_groups ∧
      create_group lib1 g f2 = .ok lib2 ∧
      lib1.group_data g = some (lib.all_cards.filter (fun cid =>
        match lib.card_data cid with | some pr => f1 pr | none => false)) ∧
      lib2.group_data g = some (lib.all_cards.filter (fun cid =>
        match lib.card_data cid with | some pr => f2 pr | none => false)) := by
  refine ⟨_, _, rfl, ?_, rfl, ?_, ?_⟩
  · simp [create_group, js_hasOwnProperty_on_Object_with_group_data]
  · simp [create_group, js_hasOwnProperty_on_Object_with_group_data]
  · simp [create_group, js_hasOwnProperty_on_Object_with_group_data]

/-!  C9: card_is_on_top_of_stack. -/

/-- C9.  `card_is_on_top_of_stack` does not return a boolean on a card
that is stacked and has no stack children: the branch reads the
undefined variable `base` and throws a ReferenceError (modelled as
`none`).  Card 1 of `exStackedPair` (stacked on card 0, no children) is
such a card. -/
theorem top_of_stack_throws_reference_error :
    card_is_on_top_of_stack exStackedPair 1 = none ∧
    (exStackedPair.card 1).stacked_on = some 0 ∧
    (exStackedPair.card 1).stack = none ∧
    stackList exStackedPair 0 = [1] := by
  refine ⟨rfl, rfl, rfl, rfl⟩

/-!  C6: delete_pile. -/

/-- C6.  `delete_pile` iterates over the live item list while removing
from it, so it skips every other card: deleting pile "p" that holds
cards 0 and 1 leaves card 1 with `pile` still set to "p" (not
pile-less), even though the pile itself and its group record are gone
and card 0 was correctly detached.  The function's own doc comment says
all cards in the pile become pile-less. -/
theorem delete_pile_skips_alternate_cards :
    delete_pile exTwoInPile "p" = some exDeleted ∧
    (exDeleted.card 1).pile = some "p" ∧
    (exDeleted.card 0).pile = none ∧
    exDeleted.piles = [] ∧
    exDeleted.pile_groups "p" = none ∧
    exDeleted.items "p" = [1] := by
  refine ⟨rfl, rfl, rfl, by decide, rfl, by decide⟩

/-!  Characterisation of `has_stack_ancestor`. -/

theorem has_stack_ancestor_iff : ∀ (n : Nat) (s : GameState) (x y : CardId) (r : Bool),
    has_stack_ancestor n s x y = some r →
    (r = true ↔ Relation.ReflTransGen (stRel s) x y) := by
  intro n
  induction n with
  | zero => intro s x y r h; simp [has_stack_ancestor] at h
  | succ n ih =>
    intro s x y r h
    by_cases hxy : x = y
    · subst hxy
      simp [has_stack_ancestor] at h
      subst h
      simpa using Relation.ReflTransGen.refl
    · simp [has_stack_ancestor, hxy] at h
      cases hso : (s.card x).stacked_on with
      | none =>
        rw [hso] at h
        simp at h
        subst h
        simp only [Bool.false_eq_true, false_iff]
        intro hr
        rcases Relation.ReflTransGen.cases_head hr with h1 | ⟨c, hc, _⟩
        · exact hxy h1
        · rw [stRel, hso] at hc; exact Option.noConfusion hc
      | some p =>
        rw [hso] at h
        have := ih s p y r h
        rw [this]
        constructor
        · intro hp
          exact Relation.ReflTransGen.head (by rw [stRel, hso]) hp
        · intro hx
          rcases Relation.ReflTransGen.cases_head hx with h1 | ⟨c, hc, hcy⟩
          · exact absurd h1 hxy
          · rw [stRel, hso] at hc
            cases hc
            exact hcy

theorem has_stack_ancestor_reaches {s : GameState} {x y : CardId}
    (h : Relation.ReflTransGen (stRel s) x y) :
    ∃ n, has_stack_ancestor n s x y = some true := by
  induction h using Relation.ReflTransGen.head_induction_on with
  | refl => exact ⟨1, by simp [has_stack_ancestor]⟩
  | head hstep _ ih =>
    obtain ⟨n, hn⟩ := ih
    rename_i a c _
    refine ⟨n + 1, ?_⟩
    by_cases hay : a = y
    · simp [has_stack_ancestor, hay]
    · rw [stRel] at hstep
      simp [has_stack_ancestor, hay, hstep, hn]

/-!  C3: cycle-violating insert is a reported no-op. -/

/-- C3.  When `insert_after` is a stack-descendant of `card` (the chain
of `stacked_on` links from `insert_after` reaches `card`),
`insert_stack_into_pile_after` reports the violation on the console and
does nothing: the call returns normally (no exception), and whenever it
returns, the state — every pile's item list and every card's `pile`,
`stacked_on` and `stack` fields — is exactly the input state. -/
theorem insert_stack_after_descendant_noop (s : GameState) (c ia : CardId)
    (h : Desc s c ia) :
    (∃ n, insert_stack_into_pile_after n s c ia = some s) ∧
    (∀ n s', insert_stack_into_pile_after n s c ia = some s' → s' = s) := by
  constructor
  · obtain ⟨n, hn⟩ := has_stack_ancestor_reaches h
    exact ⟨n + 1, by simp [insert_stack_into_pile_after, hn]⟩
  · intro n s' hs'
    match n with
    | 0 => simp [insert_stack_into_pile_after] at hs'
    | n+1 =>
      cases hg : has_stack_ancestor n s ia c with
      | none => simp [insert_stack_into_pile_after, hg] at hs'
      | some r =>
        cases r with
        | true =>
          simp [insert_stack_into_pile_after, hg] at hs'
          exact hs'.symm
        | false =>
          have := (has_stack_ancestor_iff n s ia c false hg).2 h
          exact absurd this (by simp)

/-- Witness for C3 at a concrete input: in `exStackedPair`, card 1 is
stacked on card 0, so inserting the stack of card 0 after card 1 is a
no-op. -/
theorem insert_stack_after_descendant_noop_witness :
    (∃ n, insert_stack_into_pile_after n exStackedPair 0 1 = some exStackedPair) ∧
    (∀ n s', insert_stack_into_pile_after n exStackedPair 0 1 = some s' → s' = exStackedPair) :=
  insert_stack_after_descendant_noop exStackedPair 0 1
    (Relation.ReflTransGen.single (show stRel exStackedPair 1 0 from rfl))

/-!  C8: stack_root. -/

theorem stack_root_revisit_aux (s : GameState) {c p : CardId}
    (hc : (s.card c).stacked_on = some p) :
    ∀ q, Relation.ReflTransGen (stRel s) q c → ∃ n, stack_root n s q (some c) = some p := by
  intro q hq
  induction hq using Relation.ReflTransGen.head_induction_on with
  | refl => exact ⟨1, by simp [stack_root, hc]⟩
  | head hstep _ ih =>
    rename_i a b _
    obtain ⟨n, hn⟩ := ih
    rw [stRel] at hstep
    by_cases hac : c = a
    · subst hac
      rw [hstep] at hc
      cases hc
      exact ⟨1, by simp [stack_root, hstep]⟩
    · refine ⟨n + 1, ?_⟩
      simp [stack_root, hstep, Option.some_inj, hac]
      exact hn

theorem stack_root_cycle_through_start (s : GameState) (c : CardId)
    (h : Relation.TransGen (stRel s) c c) :
    ∃ n, stack_root n s c none = (s.card c).stacked_on := by
  rcases (Relation.TransGen.head'_iff).1 h with ⟨y, hcy, hyc⟩
  have hso : (s.card c).stacked_on = some y := hcy
  obtain ⟨n, hn⟩ := stack_root_revisit_aux s hso y hyc
  refine ⟨n + 1, ?_⟩
  rw [hso]
  simp [stack_root, hso]
  exact hn

theorem reach_back_on_cycle (s : GameState) {c : CardId}
    (hcyc : Relation.TransGen (stRel s) c c) :
    ∀ x, Relation.ReflTransGen (stRel s) c x → Relation.ReflTransGen (stRel s) x c := by
  intro x hx
  induction hx with
  | refl => exact Relation.ReflTransGen.refl
  | tail _ hxy ih =>
    rename_i m y _
    rcases Relation.ReflTransGen.cases_head ih with h1 | ⟨w, hmw, hwc⟩
    · subst h1
      rcases (Relation.TransGen.head'_iff).1 hcyc with ⟨z, hcz, hzc⟩
      rw [stRel] at hxy hcz
      rw [hxy] at hcz
      cases hcz
      exact hzc
    · rw [stRel] at hxy hmw
      rw [hxy] at hmw
      cases hmw
      exact hwc

theorem cycle_reaches_no_base (s : GameState) {c b : CardId}
    (hcyc : Relation.TransGen (stRel s) c c)
    (hreach : Relation.ReflTransGen (stRel s) c b)
    (hb : (s.card b).stacked_on = none) : False := by
  have := reach_back_on_cycle s hcyc b hreach
  rcases Relation.ReflTransGen.cases_head this with h1 | ⟨w, hbw, _⟩
  · subst h1
    rcases (Relation.TransGen.head'_iff).1 hcyc with ⟨z, hcz, _⟩
    rw [stRel, hb] at hcz
    exact Option.noConfusion hcz
  · rw [stRel, hb] at hbw
    exact Option.noConfusion hbw

theorem stack_root_base_aux (s : GameState) {b c0 : CardId}
    (hb : (s.card b).stacked_on = none) :
    ∀ q, Relation.ReflTransGen (stRel s) q b → ¬ Relation.ReflTransGen (stRel s) q c0 →
      ∃ n, stack_root n s q (some c0) = some b := by
  intro q hq
  induction hq using Relation.ReflTransGen.head_induction_on with
  | refl => exact fun _ => ⟨1, by simp [stack_root, hb]⟩
  | head hstep htail ih =>
    rename_i x y
    intro hnc
    have hy : ¬ Relation.ReflTransGen (stRel s) y c0 := fun h =>
      hnc (Relation.ReflTransGen.head hstep h)
    obtain ⟨n, hn⟩ := ih hy
    have hcx : ¬ ((some c0 : Option CardId) = some x) := by
      simp only [Option.some_inj]
      exact fun h => hnc (h ▸ Relation.ReflTransGen.refl)
    refine ⟨n + 1, ?_⟩
    have hsx : (s.card x).stacked_on = some y := hstep
    simp only [stack_root, hsx, Option.getD_some]
    rw [if_neg hcx]
    exact hn

theorem stack_root_reaches_base (s : GameState) {c b : CardId}
    (hreach : Relation.ReflTransGen (stRel s) c b)
    (hb : (s.card b).stacked_on = none) :
    ∃ n, stack_root n s c none = some b := by
  cases hso : (s.card c).stacked_on with
  | none =>
    rcases Relation.ReflTransGen.cases_head hreach with h1 | ⟨z, hcz, _⟩
    · subst h1
      exact ⟨1, by simp [stack_root, hso]⟩
    · rw [stRel, hso] at hcz
      exact Option.noConfusion hcz
  | some y =>
    rcases Relation.ReflTransGen.cases_head hreach with h1 | ⟨z, hcz, hzb⟩
    · rw [h1, hb] at hso
      exact Option.noConfusion hso
    · rw [stRel, hso] at hcz
      have hzy : z = y := (Option.some_inj.1 hcz).symm
      subst hzy
      have hyc : ¬ Relation.ReflTransGen (stRel s) z c := by
        intro hcontra
        exact cycle_reaches_no_base s
          (Relation.TransGen.head' (show stRel s c z from hso) hcontra) hreach hb
      obtain ⟨n, hn⟩ := stack_root_base_aux s hb z hzb hyc
      refine ⟨n + 1, ?_⟩
      simp only [stack_root, hso, Option.getD_none]
      rw [if_neg (by simp)]
      exact hn

/-- C8 (amended).  `stack_root` terminates exactly on the documented
paths: when the `stacked_on` chain from the card reaches an unstacked
base it returns that base, and when the chain revisits the starting
card (a cycle through the start) it returns the starting card's
immediate `stacked_on`.  (On a manufactured cyclic state whose cycle
avoids the starting card the recursion never terminates; see the
counterexample.) -/
theorem stack_root_termination_amended (s : GameState) (c : CardId) :
    (∀ b, Relation.ReflTransGen (stRel s) c b → (s.card b).stacked_on = none →
      ∃ n, stack_root n s c none = some b) ∧
    (Relation.TransGen (stRel s) c c →
      ∃ n, stack_root n s c none = (s.card c).stacked_on) :=
  ⟨fun _ hr hb => stack_root_reaches_base s hr hb,
   fun h => stack_root_cycle_through_start s c h⟩

/-- Witness for C8 at concrete inputs: in `chainState` (0 → 1 → 2,
base 2) the walk from card 0 returns card 2. -/
theorem stack_root_termination_amended_witness :
    ∃ n, stack_root n chainState 0 none = some 2 :=
  (stack_root_termination_amended chainState 0).1 2
    (Relation.ReflTransGen.head (show stRel chainState 0 1 from rfl)
      (Relation.ReflTransGen.single (show stRel chainState 1 2 from rfl)))
    rfl

theorem rho_inner_loop : ∀ n : Nat,
    stack_root n rhoState 1 (some 0) = none ∧ stack_root n rhoState 2 (some 0) = none := by
  intro n
  induction n with
  | zero => exact ⟨rfl, rfl⟩
  | succ n ih =>
    constructor
    · simp only [stack_root, show (rhoState.card 1).stacked_on = some 2 from rfl,
        Option.getD_some]
      rw [if_neg (by decide)]
      exact ih.2
    · simp only [stack_root, show (rhoState.card 2).stacked_on = some 1 from rfl,
        Option.getD_some]
      rw [if_neg (by decide)]
      exact ih.1

theorem rho_walk_none : ∀ n : Nat, stack_root n rhoState 0 none = none := by
  intro n
  match n with
  | 0 => rfl
  | n + 1 =>
    simp only [stack_root, show (rhoState.card 0).stacked_on = some 1 from rfl,
      Option.getD_none]
    rw [if_neg (by decide)]
    exact (rho_inner_loop n).1

/-- C8 counterexample: in the manufactured cyclic state `rhoState`
(links 0 → 1 → 2 → 1, a cycle that does not pass through the starting
card 0) the `stack_root` recursion started at card 0 never terminates,
so the claim's "terminates for every manufactured cyclic state" fails. -/
theorem stack_root_diverges_off_start_cycle :
    ¬ stack_root_terminates rhoState 0 := by
  rintro ⟨n, r, h⟩
  rw [rho_walk_none n] at h
  exact Option.noConfusion h

/-!  Transfer lemmas for the invariants along stacking-neutral steps. -/

theorem stackList_congr {s u : GameState} (h : StackFieldsEq s u) (x : CardId) :
    stackList u x = stackList s x := by
  rw [stackList, stackList, (h x).2]

theorem StackFieldsEq_rfl (s : GameState) : StackFieldsEq s s := fun _ => ⟨rfl, rfl⟩

theorem StackFieldsEq_trans {s t u : GameState} (h1 : StackFieldsEq s t)
    (h2 : StackFieldsEq t u) : StackFieldsEq s u := fun x =>
  ⟨(h2 x).1.trans (h1 x).1, (h2 x).2.trans (h1 x).2⟩

theorem StackOk_congr {s u : GameState} (h : StackFieldsEq s u) (hs : StackOk s) :
    StackOk u := by
  intro x y
  rw [(h x).1, stackList_congr h]
  exact hs x y

theorem StacksWf_congr {s u : GameState} (h : StackFieldsEq s u) (hs : StacksWf s) :
    StacksWf u := by
  intro y l hl
  rw [(h y).2] at hl
  exact hs y l hl

theorem IdOk_congr {s u : GameState} (h : StackFieldsEq s u) (hn : u.nextId = s.nextId)
    (hs : IdOk s) : IdOk u := by
  intro x hx y
  rw [hn] at hx
  rw [(h y).1, stackList_congr h]
  exact hs x hx y

theorem EngineInv_congr {s u : GameState} (h : StackFieldsEq s u) (hn : u.nextId = s.nextId)
    (hs : EngineInv s) : EngineInv u :=
  ⟨StackOk_congr h hs.1, StacksWf_congr h hs.2.1, IdOk_congr h hn hs.2.2⟩

theorem UnstackLike_refl (s : GameState) : UnstackLike s s :=
  ⟨fun h1 h2 => ⟨h1, h2⟩, id, fun _ => Or.inl rfl, fun _ _ => id, rfl⟩

theorem UnstackLike_of_frame {s u : GameState} (h : StackFieldsEq s u)
    (hn : u.nextId = s.nextId) : UnstackLike s u := by
  refine ⟨fun h1 h2 => ⟨StackOk_congr h h1, StacksWf_congr h h2⟩, EngineInv_congr h hn,
    fun x => Or.inl (h x).1, fun x y hy => ?_, hn⟩
  rwa [stackList_congr h] at hy

theorem UnstackLike_trans {s t u : GameState} (h1 : UnstackLike s t) (h2 : UnstackLike t u) :
    UnstackLike s u := by
  obtain ⟨i1, e1, m1, k1, n1⟩ := h1
  obtain ⟨i2, e2, m2, k2, n2⟩ := h2
  refine ⟨fun ha hb => ?_, fun h => e2 (e1 h), fun x => ?_, fun x y hy => k1 x y (k2 x y hy),
    n2.trans n1⟩
  · obtain ⟨ha', hb'⟩ := i1 ha hb
    exact i2 ha' hb'
  · rcases m2 x with h | h
    · rw [h]; exact m1 x
    · exact Or.inr h

theorem stackList_nodup {s : GameState} (hw : StacksWf s) (x : CardId) :
    (stackList s x).Nodup := by
  cases h : (s.card x).stack with
  | none => simp [stackList, h]
  | some l => rw [stackList, h]; exact (hw x l h).2

/-!  Specification of `_unstack_card`. -/

theorem unstack_card_of_unstacked {s : GameState} {c : CardId}
    (h : (s.card c).stacked_on = none) : _unstack_card s c = some s := by
  simp [_unstack_card, h]

theorem unstack_card_some_spec {s u : GameState} {c q : CardId}
    (hq : (s.card c).stacked_on = some q) (h : _unstack_card s c = some u) :
    u.items = s.items ∧ u.piles = s.piles ∧ u.nextId = s.nextId ∧ u.cards = s.cards ∧
    u.pile_groups = s.pile_groups ∧
    (∀ x, (u.card x).pile = (s.card x).pile) ∧
    (∀ x, (u.card x).face_up = (s.card x).face_up) ∧
    (u.card c).stacked_on = none ∧
    (∀ x, x ≠ c → (u.card x).stacked_on = (s.card x).stacked_on) ∧
    (u.card q).stack = (if (stackList s q).erase c = [] then none
      else some ((stackList s q).erase c)) ∧
    (∀ x, x ≠ q → (u.card x).stack = (s.card x).stack) := by
  simp only [_unstack_card, hq] at h
  split at h
  · exact absurd h (by simp)
  · rename_i l heq
    have hql : (s.card q).stack = some l := by
      rw [← heq]
      by_cases hcq : q = c
      · subst hcq; simp [GameState.setCard]
      · simp [GameState.setCard, hcq]
    have hsl : stackList s q = l := by rw [stackList, hql]; rfl
    split at h
    · rename_i hemp
      have hu := Option.some_inj.1 h
      subst hu
      have hel : (stackList s q).erase c = [] := by
        rw [hsl]
        exact List.length_eq_zero.1 hemp
      refine ⟨rfl, rfl, rfl, rfl, rfl, ?_, ?_, ?_, ?_, ?_, ?_⟩
      · intro x
        by_cases hxq : x = q <;> by_cases hxc : x = c
        · subst hxq; subst hxc; simp [GameState.setCard]
        · subst hxq; simp [GameState.setCard, hxc]
        · subst hxc; simp [GameState.setCard, hxq]
        · simp [GameState.setCard, hxq, hxc]
      · intro x
        by_cases hxq : x = q <;> by_cases hxc : x = c
        · subst hxq; subst hxc; simp [GameState.setCard]
        · subst hxq; simp [GameState.setCard, hxc]
        · subst hxc; simp [GameState.setCard, hxq]
        · simp [GameState.setCard, hxq, hxc]
      · by_cases hcq : c = q
        · subst hcq; simp [GameState.setCard]
        · simp [GameState.setCard, hcq]
      · intro x hxc
        by_cases hxq : x = q
        · subst hxq
          simp [GameState.setCard, hxc]
        · simp [GameState.setCard, hxq, hxc]
      · rw [if_pos hel]
        by_cases hcq : q = c
        · subst hcq; simp [GameState.setCard]
        · simp [GameState.setCard, hcq]
      · intro x hxq
        by_cases hxc : x = c
        · subst hxc; simp [GameState.setCard, hxq]
        · simp [GameState.setCard, hxq, hxc]
    · rename_i hemp
      have hu := Option.some_inj.1 h
      subst hu
      have hel : ¬ ((stackList s q).erase c = []) := by
        rw [hsl]
        exact fun hcon => hemp (by rw [remove_item_from_array, hcon]; rfl)
      refine ⟨rfl, rfl, rfl, rfl, rfl, ?_, ?_, ?_, ?_, ?_, ?_⟩
      · intro x
        by_cases hxq : x = q <;> by_cases hxc : x = c
        · subst hxq; subst hxc; simp [GameState.setCard]
        · subst hxq; simp [GameState.setCard, hxc]
        · subst hxc; simp [GameState.setCard, hxq]
        · simp [GameState.setCard, hxq, hxc]
      · intro x
        by_cases hxq : x = q <;> by_cases hxc : x = c
        · subst hxq; subst hxc; simp [GameState.setCard]
        · subst hxq; simp [GameState.setCard, hxc]
        · subst hxc; simp [GameState.setCard, hxq]
        · simp [GameState.setCard, hxq, hxc]
      · by_cases hcq : c = q
        · subst hcq; simp [GameState.setCard]
        · simp [GameState.setCard, hcq]
      · intro x hxc
        by_cases hxq : x = q
        · subst hxq
          simp [GameState.setCard, hxc]
        · simp [GameState.setCard, hxq, hxc]
      · rw [if_neg hel]
        by_cases hcq : q = c
        · subst hcq
          simp [GameState.setCard, remove_item_from_array, hsl]
        · simp [GameState.setCard, remove_item_from_array, hcq, hsl]
      · intro x hxq
        by_cases hxc : x = c
        · subst hxc; simp [GameState.setCard, hxq]
        · simp [GameState.setCard, hxq, hxc]

theorem unstack_card_unstackLike {s u : GameState} {c : CardId}
    (h : _unstack_card s c = some u) :
    UnstackLike s u ∧ (u.card c).stacked_on = none ∧ u.items = s.items ∧ u.piles = s.piles ∧
    u.cards = s.cards ∧ (∀ x, (u.card x).pile = (s.card x).pile) ∧
    (∀ x, (u.card x).face_up = (s.card x).face_up) := by
  cases hso : (s.card c).stacked_on with
  | none =>
    rw [unstack_card_of_unstacked hso] at h
    have hu := Option.some_inj.1 h
    subst hu
    exact ⟨UnstackLike_refl s, hso, rfl, rfl, rfl, fun _ => rfl, fun _ => rfl⟩
  | some q =>
    obtain ⟨hit, hpl, hni, hcs, _, hpile, hface, hcnone, hsone, hqstack, hostack⟩ :=
      unstack_card_some_spec hso h
    have hstackL : ∀ x, x ≠ q → stackList u x = stackList s x := fun x hx => by
      rw [stackList, stackList, hostack x hx]
    have hstackQ : stackList u q = (stackList s q).erase c := by
      rw [stackList, hqstack]
      split
      · rename_i hemp; rw [hemp]; rfl
      · rfl
    have hmono : StackedMono s u := by
      intro x
      by_cases hx : x = c
      · rw [hx]; exact Or.inr hcnone
      · exact Or.inl (hsone x hx)
    have hshrink : ∀ x y, y ∈ stackList u x → y ∈ stackList s x := by
      intro x y hy
      by_cases hx : x = q
      · rw [hx] at hy ⊢
        rw [hstackQ] at hy
        exact List.erase_subset _ _ hy
      · rwa [hstackL x hx] at hy
    have hinv : StackOk s → StacksWf s → StackOk u ∧ StacksWf u := by
      intro hok hwf
      constructor
      · intro x y
        by_cases hx : x = c
        · rw [hx, hcnone]
          constructor
          · intro hcon; exact absurd hcon (by simp)
          · intro hmem
            exfalso
            by_cases hy : y = q
            · rw [hy, hstackQ] at hmem
              exact ((List.Nodup.mem_erase_iff (stackList_nodup hwf q)).1 hmem).1 rfl
            · rw [hstackL y hy] at hmem
              have h2 := (hok c y).2 hmem
              rw [hso] at h2
              exact hy (Option.some_inj.1 h2).symm
        · rw [hsone x hx]
          by_cases hy : y = q
          · rw [hy, hstackQ, List.Nodup.mem_erase_iff (stackList_nodup hwf q)]
            constructor
            · intro hxy; exact ⟨hx, (hok x q).1 hxy⟩
            · rintro ⟨_, hxq⟩; exact (hok x q).2 hxq
          · rw [hstackL y hy]
            exact hok x y
      · intro y l hl
        by_cases hy : y = q
        · rw [hy, hqstack] at hl
          split at hl
          · exact absurd hl (by simp)
          · rename_i hne
            have h2 := Option.some_inj.1 hl
            rw [← h2]
            exact ⟨hne, List.Nodup.erase c (stackList_nodup hwf q)⟩
        · rw [hostack y hy] at hl
          exact hwf y l hl
    refine ⟨⟨hinv, ?_, hmono, hshrink, hni⟩, hcnone, hit, hpl, hcs, hpile, hface⟩
    intro ⟨hok, hwf, hid⟩
    obtain ⟨hok', hwf'⟩ := hinv hok hwf
    refine ⟨hok', hwf', ?_⟩
    intro x hx y
    rw [hni] at hx
    exact ⟨fun hcon => by
        rcases hmono y with hm | hm
        · rw [hm] at hcon; exact (hid x hx y).1 hcon
        · rw [hm] at hcon; exact Option.noConfusion hcon,
      fun hcon => (hid x hx y).2 (hshrink y x hcon)⟩

theorem remove_card_from_pile_frame {s u : GameState} {c : CardId}
    (h : _remove_card_from_pile s c = some u) :
    StackFieldsEq s u ∧ u.piles = s.piles ∧ u.nextId = s.nextId ∧ u.cards = s.cards ∧
    u.pile_groups = s.pile_groups ∧ (∀ x, (u.card x).face_up = (s.card x).face_up) ∧
    (u.card c).pile = none ∧ (∀ x, x ≠ c → (u.card x).pile = (s.card x).pile) := by
  cases hp : (s.card c).pile with
  | none =>
    simp only [_remove_card_from_pile, hp] at h
    have hu := Option.some_inj.1 h
    subst hu
    exact ⟨StackFieldsEq_rfl s, rfl, rfl, rfl, rfl, fun _ => rfl, hp, fun _ _ => rfl⟩
  | some p =>
    simp only [_remove_card_from_pile, hp] at h
    split at h
    · have hu := Option.some_inj.1 h
      subst hu
      refine ⟨fun x => ?_, rfl, rfl, rfl, rfl, fun x => ?_, ?_, fun x hx => ?_⟩
      · by_cases hx : x = c <;> simp [GameState.setCard, GameState.setItems, hx]
      · by_cases hx : x = c <;> simp [GameState.setCard, GameState.setItems, hx]
      · simp [GameState.setCard, GameState.setItems]
      · simp [GameState.setCard, GameState.setItems, hx]
    · exact absurd h (by simp)

theorem removeStackAux_nil (n : Nat) (s : GameState) :
    removeStackAux n s [] = some s := by
  cases n <;> rfl

theorem removeStackAux_frame :
    ∀ (n : Nat) (s : GameState) (l : List CardId) (u : GameState),
      removeStackAux n s l = some u →
      StackFieldsEq s u ∧ u.piles = s.piles ∧ u.nextId = s.nextId ∧ u.cards = s.cards ∧
      (∀ x, (u.card x).face_up = (s.card x).face_up) := by
  intro n
  induction n using Nat.strong_induction_on with
  | _ n ih =>
    intro s l
    induction l generalizing s with
    | nil =>
      intro u h
      rw [removeStackAux_nil] at h
      have hu := Option.some_inj.1 h
      subst hu
      exact ⟨StackFieldsEq_rfl s, rfl, rfl, rfl, fun _ => rfl⟩
    | cons c rest ihl =>
      intro u h
      cases n with
      | zero => rw [removeStackAux] at h; exact absurd h (by simp)
      | succ m =>
        rw [removeStackAux] at h
        obtain ⟨s1, h1, hrest'⟩ := Option.bind_eq_some.1 h
        obtain ⟨s2, h2, h3⟩ := Option.bind_eq_some.1 hrest'
        obtain ⟨f1, p1, n1, c1, _, ff1, _, _⟩ := remove_card_from_pile_frame h1
        obtain ⟨f2, p2, n2, c2, ff2⟩ := ih m (Nat.lt_succ_self m) s1 (stackList s1 c) s2 h2
        obtain ⟨f3, p3, n3, c3, ff3⟩ := ihl s2 u h3
        exact ⟨StackFieldsEq_trans (StackFieldsEq_trans f1 f2) f3,
          p3.trans (p2.trans p1), n3.trans (n2.trans n1), c3.trans (c2.trans c1),
          fun x => (ff3 x).trans ((ff2 x).trans (ff1 x))⟩

theorem removeStackAux_unstackLike {n : Nat} {s u : GameState} {l : List CardId}
    (h : removeStackAux n s l = some u) : UnstackLike s u := by
  obtain ⟨f, _, hn, _, _⟩ := removeStackAux_frame n s l u h
  exact UnstackLike_of_frame f hn

theorem insertChildren_unstackLike_of (n : Nat)
    (hA : ∀ s c ia u, insert_stack_into_pile_after n s c ia = some u → UnstackLike s u) :
    ∀ (l : List CardId) (par : CardId) (s u : GameState),
      insertChildren n s l par = some u → UnstackLike s u := by
  intro l
  induction l with
  | nil =>
    intro par s u h
    rw [insertChildren] at h
    have hu := Option.some_inj.1 h
    subst hu
    exact UnstackLike_refl s
  | cons x rest ih =>
    intro par s u h
    rw [insertChildren] at h
    obtain ⟨s1, h1, h2⟩ := Option.bind_eq_some.1 h
    exact UnstackLike_trans (hA s x par s1 h1) (ih par s1 u h2)

theorem insert_stack_unstackLike :
    ∀ (n : Nat) (s : GameState) (c ia : CardId) (u : GameState),
      insert_stack_into_pile_after n s c ia = some u → UnstackLike s u := by
  intro n
  induction n with
  | zero => intro s c ia u h; rw [insert_stack_into_pile_after] at h; exact absurd h (by simp)
  | succ n ih =>
    intro s c ia u h
    rw [insert_stack_into_pile_after] at h
    obtain ⟨r, hr, h⟩ := Option.bind_eq_some.1 h
    cases r with
    | true =>
      simp only [if_true] at h
      have hu := Option.some_inj.1 h
      subst hu
      exact UnstackLike_refl s
    | false =>
      simp only [Bool.false_eq_true, if_false] at h
      obtain ⟨s1, h1, h⟩ := Option.bind_eq_some.1 h
      obtain ⟨s2, h2, h⟩ := Option.bind_eq_some.1 h
      have hu1 : UnstackLike s s1 := removeStackAux_unstackLike h1
      have hu2 : UnstackLike s1 s2 := by
        cases hso : (s1.card c).stacked_on with
        | none =>
          simp only [hso] at h2
          have := Option.some_inj.1 h2
          subst this
          exact UnstackLike_refl s1
        | some q =>
          simp only [hso] at h2
          split at h2
          · exact (unstack_card_unstackLike h2).1
          · have := Option.some_inj.1 h2
            subst this
            exact UnstackLike_refl s1
      have hu3 : UnstackLike s2 u := by
        cases hp : (s2.card ia).pile with
        | none =>
          simp only [hp] at h
          exact absurd h (by simp)
        | some p =>
          simp only [hp] at h
          split at h
          · split at h
            · have hu := Option.some_inj.1 h
              subst hu
              refine UnstackLike_of_frame (fun x => ?_) rfl
              by_cases hx : x = c <;>
                simp [GameState.setCard, GameState.setItems, hx]
            · rename_i l hst
              have hchild := insertChildren_unstackLike_of n
                (fun s' c' ia' u' h' => ih s' c' ia' u' h') l c _ u h
              refine UnstackLike_trans ?_ hchild
              refine UnstackLike_of_frame (fun x => ?_) rfl
              by_cases hx : x = c <;>
                simp [GameState.setCard, GameState.setItems, hx]
          · exact absurd h (by simp)
      exact UnstackLike_trans hu1 (UnstackLike_trans hu2 hu3)

theorem putStackChildren_unstackLike_of (n : Nat)
    (hA : ∀ s c pid u, put_stack_on_pile n s c pid = some u → UnstackLike s u) :
    ∀ (l : List CardId) (pid : PileId) (s u : GameState),
      putStackChildren n s l pid = some u → UnstackLike s u := by
  intro l
  induction l with
  | nil =>
    intro pid s u h
    rw [putStackChildren] at h
    have hu := Option.some_inj.1 h
    subst hu
    exact UnstackLike_refl s
  | cons x rest ih =>
    intro pid s u h
    rw [putStackChildren] at h
    obtain ⟨s1, h1, h2⟩ := Option.bind_eq_some.1 h
    exact UnstackLike_trans (hA s x pid s1 h1) (ih pid s1 u h2)

theorem put_stack_unstackLike :
    ∀ (n : Nat) (s : GameState) (c : CardId) (pid : PileId) (u : GameState),
      put_stack_on_pile n s c pid = some u → UnstackLike s u := by
  intro n
  induction n with
  | zero => intro s c pid u h; rw [put_stack_on_pile] at h; exact absurd h (by simp)
  | succ n ih =>
    intro s c pid u h
    rw [put_stack_on_pile] at h
    obtain ⟨s1, h1, h⟩ := Option.bind_eq_some.1 h
    have hu1 : UnstackLike s s1 := removeStackAux_unstackLike h1
    split at h
    · obtain ⟨s4, h4, h⟩ := Option.bind_eq_some.1 h
      have hu2 : UnstackLike s1 s4 := by
        have hfr : StackFieldsEq s1
            ((s1.setCard c { s1.card c with pile := some pid }).setItems pid
              ((s1.setCard c { s1.card c with pile := some pid }).items pid ++ [c])) := by
          intro x
          by_cases hx : x = c <;>
            simp [GameState.setCard, GameState.setItems, hx]
        cases hst : (((s1.setCard c { s1.card c with pile := some pid }).setItems pid
            ((s1.setCard c { s1.card c with pile := some pid }).items pid ++ [c])).card c).stack with
        | none =>
          rw [hst] at h4
          have := Option.some_inj.1 h4
          subst this
          exact UnstackLike_of_frame hfr rfl
        | some l =>
          rw [hst] at h4
          exact UnstackLike_trans (UnstackLike_of_frame hfr rfl)
            (putStackChildren_unstackLike_of n
              (fun s' c' pid' u' h' => ih s' c' pid' u' h') l pid _ s4 h4)
      have hu3 : UnstackLike s4 u := by
        cases hso : (s4.card c).stacked_on with
        | none =>
          simp only [hso] at h
          have := Option.some_inj.1 h
          subst this
          exact UnstackLike_refl s4
        | some q =>
          simp only [hso] at h
          split at h
          · exact (unstack_card_unstackLike h).1
          · have := Option.some_inj.1 h
            subst this
            exact UnstackLike_refl s4
      exact UnstackLike_trans hu1 (UnstackLike_trans hu2 hu3)
    · exact absurd h (by simp)

theorem unstackList_unstackLike :
    ∀ (l : List CardId) (s u : GameState), unstackList s l = some u → UnstackLike s u := by
  intro l
  induction l with
  | nil =>
    intro s u h
    rw [unstackList] at h
    have hu := Option.some_inj.1 h
    subst hu
    exact UnstackLike_refl s
  | cons x rest ih =>
    intro s u h
    rw [unstackList] at h
    obtain ⟨s1, h1, h2⟩ := Option.bind_eq_some.1 h
    exact UnstackLike_trans (unstack_card_unstackLike h1).1 (ih s1 u h2)

theorem unstack_all_from_unstackLike {s u : GameState} {c : CardId}
    (h : unstack_all_from s c = some u) : UnstackLike s u := by
  rw [unstack_all_from] at h
  split at h
  · have hu := Option.some_inj.1 h
    subst hu
    exact UnstackLike_refl s
  · exact unstackList_unstackLike _ s u h

theorem unstack_card_outer_unstackLike {n : Nat} {s u : GameState} {c : CardId}
    (h : unstack_card n s c = some u) : UnstackLike s u := by
  rw [unstack_card] at h
  obtain ⟨s1, h1, h⟩ := Option.bind_eq_some.1 h
  have hu1 := (unstack_card_unstackLike h1).1
  refine UnstackLike_trans hu1 ?_
  cases hpo : (s.card c).pile with
  | none =>
    simp only [hpo] at h
    have hu := Option.some_inj.1 h
    subst hu
    exact UnstackLike_refl s1
  | some po =>
    simp only [hpo] at h
    cases hso : (s.card c).stacked_on with
    | none =>
      simp only [hso] at h
      have hu := Option.some_inj.1 h
      subst hu
      exact UnstackLike_refl s1
    | some q =>
      simp only [hso] at h
      cases hst : (s1.card q).stack with
      | none =>
        simp only [hst] at h
        have hu := Option.some_inj.1 h
        subst hu
        exact UnstackLike_refl s1
      | some l =>
        simp only [hst] at h
        split at h
        · exact insert_stack_unstackLike n s1 c q u h
        · have hu := Option.some_inj.1 h
          subst hu
          exact UnstackLike_refl s1

theorem unstackAllLoop_unstackLike :
    ∀ (l : List CardId) (s u : GameState), unstackAllLoop s l = some u → UnstackLike s u := by
  intro l
  induction l with
  | nil =>
    intro s u h
    rw [unstackAllLoop] at h
    have hu := Option.some_inj.1 h
    subst hu
    exact UnstackLike_refl s
  | cons x rest ih =>
    intro s u h
    rw [unstackAllLoop] at h
    obtain ⟨s1, h1, h2⟩ := Option.bind_eq_some.1 h
    exact UnstackLike_trans (unstack_all_from_unstackLike h1) (ih s1 u h2)

theorem shuffle_pile_unstackLike {s u : GameState} {p : PileId} {r : Nat → Nat}
    (h : shuffle_pile s p r = some u) : UnstackLike s u := by
  rw [shuffle_pile] at h
  split at h
  · obtain ⟨s1, h1, h2⟩ := Option.bind_eq_some.1 h
    have hu := Option.some_inj.1 h2
    subst hu
    refine UnstackLike_trans (unstackAllLoop_unstackLike _ s s1 h1) ?_
    exact UnstackLike_of_frame (fun x => ⟨rfl, rfl⟩) rfl
  · exact absurd h (by simp)

theorem stack_cards_fields (t : GameState) (a b : CardId) :
    ((_stack_cards t a b).card a).stacked_on = some b ∧
    (∀ x, x ≠ a → ((_stack_cards t a b).card x).stacked_on = (t.card x).stacked_on) ∧
    ((_stack_cards t a b).card b).stack = some (stackList t b ++ [a]) ∧
    (∀ x, x ≠ b → ((_stack_cards t a b).card x).stack = (t.card x).stack) ∧
    (_stack_cards t a b).items = t.items ∧ (_stack_cards t a b).piles = t.piles ∧
    (_stack_cards t a b).nextId = t.nextId ∧ (_stack_cards t a b).cards = t.cards ∧
    (∀ x, ((_stack_cards t a b).card x).pile = (t.card x).pile) ∧
    (∀ x, ((_stack_cards t a b).card x).face_up = (t.card x).face_up) := by
  have hbs : ((t.setCard a { t.card a with stacked_on := some b }).card b).stack
      = (t.card b).stack := by
    by_cases hab : b = a
    · rw [hab]; simp [GameState.setCard]
    · simp [GameState.setCard, hab]
  rw [_stack_cards]
  cases hst : ((t.setCard a { t.card a with stacked_on := some b }).card b).stack with
  | none =>
    rw [hbs] at hst
    have hsl : stackList t b = [] := by rw [stackList, hst]; rfl
    rw [hsl]
    refine ⟨?_, ?_, ?_, ?_, rfl, rfl, rfl, rfl, ?_, ?_⟩
    · by_cases hab : a = b
      · rw [hab]; simp [GameState.setCard]
      · simp [GameState.setCard, hab]
    · intro x hx
      by_cases hxb : x = b
      · rw [hxb]; simp [GameState.setCard, hbs, (by rw [hxb] at hx; exact hx : b ≠ a)]
      · simp [GameState.setCard, hxb, hx]
    · simp [GameState.setCard]
    · intro x hx
      by_cases hxa : x = a
      · rw [hxa]; simp [GameState.setCard, (by rw [hxa] at hx; exact hx : a ≠ b)]
      · simp [GameState.setCard, hxa, hx]
    · intro x
      by_cases hxb : x = b <;> by_cases hxa : x = a
      · rw [hxb]; simp [GameState.setCard, hxb ▸ hxa]
      · rw [hxb]; simp [GameState.setCard, (by rw [hxb] at hxa; exact hxa : ¬ b = a)]
      · rw [hxa]; simp [GameState.setCard, (by rw [hxa] at hxb; exact hxb : ¬ a = b)]
      · simp [GameState.setCard, hxa, hxb]
    · intro x
      by_cases hxb : x = b <;> by_cases hxa : x = a
      · rw [hxb]; simp [GameState.setCard, hxb ▸ hxa]
      · rw [hxb]; simp [GameState.setCard, (by rw [hxb] at hxa; exact hxa : ¬ b = a)]
      · rw [hxa]; simp [GameState.setCard, (by rw [hxa] at hxb; exact hxb : ¬ a = b)]
      · simp [GameState.setCard, hxa, hxb]
  | some l =>
    rw [hbs] at hst
    have hsl : stackList t b = l := by rw [stackList, hst]; rfl
    rw [hsl]
    refine ⟨?_, ?_, ?_, ?_, rfl, rfl, rfl, rfl, ?_, ?_⟩
    · by_cases hab : a = b
      · rw [hab]; simp [GameState.setCard]
      · simp [GameState.setCard, hab]
    · intro x hx
      by_cases hxb : x = b
      · rw [hxb]; simp [GameState.setCard, hbs, (by rw [hxb] at hx; exact hx : b ≠ a)]
      · simp [GameState.setCard, hxb, hx]
    · simp [GameState.setCard]
    · intro x hx
      by_cases hxa : x = a
      · rw [hxa]; simp [GameState.setCard, (by rw [hxa] at hx; exact hx : a ≠ b)]
      · simp [GameState.setCard, hxa, hx]
    · intro x
      by_cases hxb : x = b <;> by_cases hxa : x = a
      · rw [hxb]; simp [GameState.setCard, hxb ▸ hxa]
      · rw [hxb]; simp [GameState.setCard, (by rw [hxb] at hxa; exact hxa : ¬ b = a)]
      · rw [hxa]; simp [GameState.setCard, (by rw [hxa] at hxb; exact hxb : ¬ a = b)]
      · simp [GameState.setCard, hxa, hxb]
    · intro x
      by_cases hxb : x = b <;> by_cases hxa : x = a
      · rw [hxb]; simp [GameState.setCard, hxb ▸ hxa]
      · rw [hxb]; simp [GameState.setCard, (by rw [hxb] at hxa; exact hxa : ¬ b = a)]
      · rw [hxa]; simp [GameState.setCard, (by rw [hxa] at hxb; exact hxb : ¬ a = b)]
      · simp [GameState.setCard, hxa, hxb]

theorem stack_cards_engineInv {t : GameState} {a b : CardId}
    (hok : StackOk t) (hwf : StacksWf t) (hdet : (t.card a).stacked_on = none) :
    (StackOk (_stack_cards t a b) ∧ StacksWf (_stack_cards t a b)) ∧
    (IdOk t → a < t.nextId → b < t.nextId → IdOk (_stack_cards t a b)) := by
  obtain ⟨ha, hso, hbst, hst, _, _, hni, _, _, _⟩ := stack_cards_fields t a b
  have hmem : a ∉ stackList t b := fun hmem => by
    rw [(hok a b).2 hmem] at hdet
    exact Option.noConfusion hdet
  have hstackb : stackList (_stack_cards t a b) b = stackList t b ++ [a] := by
    rw [stackList, hbst]; rfl
  have hstacko : ∀ x, x ≠ b → stackList (_stack_cards t a b) x = stackList t x :=
    fun x hx => by rw [stackList, hst x hx]; rfl
  constructor
  · constructor
    · intro x y
      by_cases hxa : x = a
      · rw [hxa, ha]
        by_cases hyb : y = b
        · rw [hyb]
          simp only [Option.some_inj, hstackb]
          constructor
          · intro _; exact List.mem_append_right _ (List.mem_singleton_self a)
          · intro _; trivial
        · rw [hstacko y hyb]
          constructor
          · intro hcon; exact absurd (Option.some_inj.1 hcon) (fun hby => hyb hby.symm)
          · intro hmem2
            exact absurd ((hok a y).2 hmem2) (by rw [hdet]; exact fun hcon => Option.noConfusion hcon)
      · rw [hso x hxa]
        by_cases hyb : y = b
        · rw [hyb, hstackb]
          rw [List.mem_append]
          constructor
          · intro hx; exact Or.inl ((hok x b).1 hx)
          · intro hx
            rcases hx with hx | hx
            · exact (hok x b).2 hx
            · exact absurd (List.mem_singleton.1 hx) hxa
        · rw [hstacko y hyb]
          exact hok x y
    · intro y l hl
      by_cases hyb : y = b
      · rw [hyb, hbst] at hl
        have hl2 := Option.some_inj.1 hl
        rw [← hl2]
        constructor
        · simp
        · rw [List.nodup_append]
          exact ⟨stackList_nodup hwf b, List.nodup_singleton a, by simpa using hmem⟩
      · rw [hst y hyb] at hl
        exact hwf y l hl
  · intro hid hai hbi
    intro x hx y
    rw [hni] at hx
    constructor
    · intro hcon
      by_cases hya : y = a
      · rw [hya, ha] at hcon
        have hbx : b = x := Option.some_inj.1 hcon
        rw [← hbx] at hx
        exact absurd hbi (Nat.not_lt.2 hx)
      · rw [hso y hya] at hcon
        exact (hid x hx y).1 hcon
    · intro hcon
      by_cases hyb : y = b
      · rw [hyb, hstackb] at hcon
        rcases List.mem_append.1 hcon with hcon | hcon
        · exact (hid x hx b).2 hcon
        · have hxa : x = a := List.mem_singleton.1 hcon
          rw [hxa] at hx
          exact absurd hai (Nat.not_lt.2 hx)
      · rw [hstacko y hyb] at hcon
        exact (hid x hx y).2 hcon

theorem stack_card_on_card_engineInv {n : Nat} {s : GameState} {a b : CardId} {r : OpResult}
    (hinv : EngineInv s) (ha : a < s.nextId) (hb : b < s.nextId)
    (h : stack_card_on_card n s a b = some r) : EngineInv r.state := by
  rw [stack_card_on_card] at h
  split at h
  · have hr := Option.some_inj.1 h
    subst hr
    exact hinv
  · obtain ⟨s1, h1, h⟩ := Option.bind_eq_some.1 h
    obtain ⟨hu1, hdet1, _, _, _, _, _⟩ := unstack_card_unstackLike h1
    cases hp : (s1.card b).pile with
    | none =>
      simp only [hp] at h
      obtain ⟨s2, h2, h⟩ := Option.bind_eq_some.1 h
      have hr := Option.some_inj.1 h
      subst hr
      have hu2 := removeStackAux_unstackLike h2
      have hdet2 : (s2.card a).stacked_on = none := by
        rcases hu2.2.2.1 a with hm | hm
        · rw [hm, hdet1]
        · exact hm
      have hinv2 : EngineInv s2 := hu2.2.1 (hu1.2.1 hinv)
      have hnid : s2.nextId = s.nextId := by
        rw [hu2.2.2.2.2, hu1.2.2.2.2]
      obtain ⟨hcons, hid⟩ := stack_cards_engineInv hinv2.1 hinv2.2.1 hdet2
      have ha2 : a < s2.nextId := by rw [hnid]; exact ha
      have hb2 : b < s2.nextId := by rw [hnid]; exact hb
      exact ⟨hcons.1, hcons.2, hid hinv2.2.2 ha2 hb2⟩
    | some p =>
      simp only [hp] at h
      obtain ⟨s2, h2, h⟩ := Option.bind_eq_some.1 h
      have hr := Option.some_inj.1 h
      subst hr
      have hu2 := insert_stack_unstackLike n s1 a b s2 h2
      have hdet2 : (s2.card a).stacked_on = none := by
        rcases hu2.2.2.1 a with hm | hm
        · rw [hm, hdet1]
        · exact hm
      have hinv2 : EngineInv s2 := hu2.2.1 (hu1.2.1 hinv)
      have hnid : s2.nextId = s.nextId := by
        rw [hu2.2.2.2.2, hu1.2.2.2.2]
      obtain ⟨hcons, hid⟩ := stack_cards_engineInv hinv2.1 hinv2.2.1 hdet2
      have ha2 : a < s2.nextId := by rw [hnid]; exact ha
      have hb2 : b < s2.nextId := by rw [hnid]; exact hb
      exact ⟨hcons.1, hcons.2, hid hinv2.2.2 ha2 hb2⟩

theorem MoveStep_engineInv {n : Nat} {m : Move} {s s' : GameState}
    (hinv : EngineInv s) (hargs : m.argsOk s = true) (h : MoveStep n m s = some s') :
    EngineInv s' := by
  cases m with
  | stackCard a b =>
    simp only [MoveStep, Option.map_eq_some'] at h
    obtain ⟨r, hr, hs'⟩ := h
    simp only [Move.argsOk, Bool.and_eq_true, decide_eq_true_eq] at hargs
    subst hs'
    exact stack_card_on_card_engineInv hinv hargs.1 hargs.2 hr
  | insertStack a b =>
    exact (insert_stack_unstackLike n s a b s' h).2.1 hinv
  | insertCard a b =>
    simp only [MoveStep, insert_card_into_pile_after] at h
    obtain ⟨s1, h1, h⟩ := Option.bind_eq_some.1 h
    obtain ⟨s2, h2, h⟩ := Option.bind_eq_some.1 h
    exact (insert_stack_unstackLike n s2 a b s' h).2.1
      ((unstack_all_from_unstackLike h2).2.1 ((unstack_card_unstackLike h1).1.2.1 hinv))
  | putCard a p =>
    simp only [MoveStep, put_card_on_pile] at h
    obtain ⟨s1, h1, h⟩ := Option.bind_eq_some.1 h
    obtain ⟨s2, h2, h⟩ := Option.bind_eq_some.1 h
    exact (put_stack_unstackLike n s2 a p s' h).2.1
      ((unstack_all_from_unstackLike h2).2.1 ((unstack_card_unstackLike h1).1.2.1 hinv))
  | putStack a p =>
    exact (put_stack_unstackLike n s a p s' h).2.1 hinv
  | removeCard a =>
    simp only [MoveStep, remove_card_from_pile] at h
    obtain ⟨s1, h1, h⟩ := Option.bind_eq_some.1 h
    obtain ⟨s2, h2, h⟩ := Option.bind_eq_some.1 h
    have hinv2 := (unstack_card_outer_unstackLike h2).2.1
      ((unstack_all_from_unstackLike h1).2.1 hinv)
    obtain ⟨f3, _, n3, _, _, _, _, _⟩ := remove_card_from_pile_frame h
    exact EngineInv_congr f3 n3 hinv2
  | removeStack a =>
    simp only [MoveStep, remove_stack_from_pile] at h
    obtain ⟨s1, h1, h⟩ := Option.bind_eq_some.1 h
    exact (removeStackAux_unstackLike h).2.1 ((unstack_card_unstackLike h1).1.2.1 hinv)
  | unstackCard a =>
    exact (unstack_card_outer_unstackLike h).2.1 hinv
  | unstackAll a =>
    exact (unstack_all_from_unstackLike h).2.1 hinv
  | shufflePile p r =>
    exact (shuffle_pile_unstackLike h).2.1 hinv

theorem create_pile_engineInv {s : GameState} (p : PileId) (hinv : EngineInv s) :
    EngineInv (create_pile s p) :=
  EngineInv_congr (fun _ => ⟨rfl, rfl⟩) rfl hinv

theorem flip_card_engineInv {s : GameState} (c : CardId) (b : Option Bool)
    (hinv : EngineInv s) : EngineInv (flip_card s c b) := by
  refine EngineInv_congr (fun x => ?_) ?_ hinv
  · obtain ⟨_, hfr, _, _, _⟩ := flip_card_only_changes_face_up s c b
    exact ⟨(hfr x).2.1, (hfr x).2.2⟩
  · cases b <;> rfl

theorem new_game_engineInv {s : GameState} (hinv : EngineInv s) :
    EngineInv (new_game s) :=
  EngineInv_congr (fun _ => ⟨rfl, rfl⟩) rfl hinv

theorem deletePileLoop_frame :
    ∀ (n : Nat) (s : GameState) (p : PileId) (k : Nat) (u : GameState),
      deletePileLoop n s p k = some u →
      StackFieldsEq s u ∧ u.piles = s.piles ∧ u.nextId = s.nextId ∧
      u.pile_groups = s.pile_groups := by
  intro n
  induction n with
  | zero => intro s p k u h; rw [deletePileLoop] at h; exact absurd h (by simp)
  | succ n ih =>
    intro s p k u h
    rw [deletePileLoop] at h
    split at h
    · obtain ⟨s1, h1, h2⟩ := Option.bind_eq_some.1 h
      obtain ⟨f1, p1, n1, _, g1, _, _, _⟩ := remove_card_from_pile_frame h1
      obtain ⟨f2, p2, n2, g2⟩ := ih s1 p (k+1) u h2
      exact ⟨StackFieldsEq_trans f1 f2, p2.trans p1, n2.trans n1, g2.trans g1⟩
    · have hu := Option.some_inj.1 h
      subst hu
      exact ⟨StackFieldsEq_rfl s, rfl, rfl, rfl⟩

theorem delete_pile_engineInv {s u : GameState} {p : PileId}
    (h : delete_pile s p = some u) (hinv : EngineInv s) : EngineInv u := by
  rw [delete_pile] at h
  split at h
  · obtain ⟨s1, h1, h2⟩ := Option.bind_eq_some.1 h
    have hu := Option.some_inj.1 h2
    subst hu
    obtain ⟨f1, _, n1, _⟩ := deletePileLoop_frame _ s p 0 s1 h1
    exact EngineInv_congr (fun x => f1 x) n1 hinv
  · exact absurd h (by simp)

theorem create_card_engineInv {s : GameState} (fu : Bool) (hinv : EngineInv s) :
    EngineInv (create_card s fu).1 := by
  obtain ⟨hok, hwf, hid⟩ := hinv
  have hcard : ∀ x, ((create_card s fu).1.card x) =
      (if x = s.nextId then { pile := none, stacked_on := none, stack := none, face_up := fu }
       else s.card x) := by
    intro x
    by_cases hx : x = s.nextId <;> simp [create_card, GameState.setCard, hx]
  have hstackL : ∀ y, stackList (create_card s fu).1 y =
      (if y = s.nextId then [] else stackList s y) := by
    intro y
    by_cases hy : y = s.nextId <;> rw [stackList, hcard y] <;> simp [hy, stackList]
  refine ⟨?_, ?_, ?_⟩
  · intro x y
    rw [hcard x, hstackL y]
    by_cases hx : x = s.nextId
    · rw [if_pos hx]
      by_cases hy : y = s.nextId
      · rw [if_pos hy]
        simp
      · rw [if_neg hy]
        constructor
        · intro hcon; exact absurd hcon (by simp)
        · intro hcon
          rw [hx] at hcon
          exact absurd hcon ((hid s.nextId (Nat.le_refl _) y).2)
    · rw [if_neg hx]
      by_cases hy : y = s.nextId
      · rw [if_pos hy]
        constructor
        · intro hcon
          rw [hy] at hcon
          exact absurd hcon ((hid s.nextId (Nat.le_refl _) x).1)
        · intro hcon
          exact absurd hcon (List.not_mem_nil x)
      · rw [if_neg hy]
        exact hok x y
  · intro y l hl
    rw [hcard y] at hl
    by_cases hy : y = s.nextId
    · rw [if_pos hy] at hl
      exact absurd hl (by simp)
    · rw [if_neg hy] at hl
      exact hwf y l hl
  · intro x hx y
    have hx' : s.nextId ≤ x := by
      have : (create_card s fu).1.nextId = s.nextId + 1 := rfl
      rw [this] at hx
      omega
    have hxne : ¬ (x = s.nextId) := by
      have : (create_card s fu).1.nextId = s.nextId + 1 := rfl
      rw [this] at hx
      omega
    rw [hcard y, hstackL y]
    by_cases hy : y = s.nextId
    · simp [hy, hxne]
    · simp only [if_neg hy]
      exact hid x hx' y

theorem initState_engineInv : EngineInv initState := by
  refine ⟨fun x y => ?_, fun y l hl => ?_, fun x hx y => ?_⟩
  · constructor
    · intro hcon
      exact absurd hcon (by simp [initState])
    · intro hcon
      exact absurd hcon (List.not_mem_nil x)
  · exact absurd hl (by simp [initState])
  · refine ⟨fun hcon => absurd hcon (by simp [initState]), List.not_mem_nil x⟩

theorem reachable_engineInv {s : GameState} (h : Reachable s) : EngineInv s := by
  induction h with
  | init => exact initState_engineInv
  | createPile p _ ih => exact create_pile_engineInv p ih
  | deletePile p _ hd ih => exact delete_pile_engineInv hd ih
  | createCard fu _ ih => exact create_card_engineInv fu ih
  | flipCard c b _ ih => exact flip_card_engineInv c b ih
  | newGame _ ih => exact new_game_engineInv ih
  | move n m _ hargs hstep ih => exact MoveStep_engineInv ih hargs hstep

/-!  C1: the round-trip stacking invariant after every MoveEngine
operation. -/

/-- C1.  For every reachable game state and every public MoveEngine
operation (`stack_card_on_card`, `insert_stack_into_pile_after`,
`insert_card_into_pile_after`, `put_card_on_pile`, `put_stack_on_pile`,
`remove_card_from_pile`, `remove_stack_from_pile`, `unstack_card`,
`unstack_all_from`, `shuffle_pile`) whose card arguments the caller can
reference, the state after the operation is bidirectionally consistent:
for all cards X and Y, `X.stacked_on == Y` exactly when `Y.stack`
contains X. -/
theorem moves_preserve_stack_consistency (s : GameState) (n : Nat) (m : Move)
    (s' : GameState) (hr : Reachable s) (hargs : m.argsOk s = true)
    (h : MoveStep n m s = some s') :
    ∀ x y, (s'.card x).stacked_on = some y ↔ x ∈ stackList s' y :=
  (MoveStep_engineInv (reachable_engineInv hr) hargs h).1

/-- Witness for C1 at a concrete input: from the empty game, create pile
"p" and two cards, put card 0 on "p" (a reachable state), then stack
card 1 on card 0; the resulting state satisfies the round-trip stacking
invariant. -/
theorem moves_preserve_stack_consistency_witness :
    (wReach2.card 1).stacked_on = some 0 ↔ 1 ∈ stackList wReach2 0 :=
  moves_preserve_stack_consistency wReach1 5 (.stackCard 1 0) wReach2
    (Reachable.move 5 (.putCard 0 "p")
      (Reachable.createCard false (Reachable.createCard false
        (Reachable.createPile "p" Reachable.init)))
      rfl rfl)
    rfl rfl 1 0

/-!  C5: specification of `shuffle_pile`. -/

theorem PileFrame_refl (s : GameState) : PileFrame s s :=
  ⟨rfl, rfl, rfl, fun _ => rfl, fun _ => rfl⟩

theorem PileFrame_trans {s t u : GameState} (h1 : PileFrame s t) (h2 : PileFrame t u) :
    PileFrame s u :=
  ⟨h2.1.trans h1.1, h2.2.1.trans h1.2.1, h2.2.2.1.trans h1.2.2.1,
   fun x => (h2.2.2.2.1 x).trans (h1.2.2.2.1 x),
   fun x => (h2.2.2.2.2 x).trans (h1.2.2.2.2 x)⟩

theorem stack_none_of_empty {t : GameState} {c : CardId} (hwf : StacksWf t)
    (h : stackList t c = []) : (t.card c).stack = none := by
  cases hs : (t.card c).stack with
  | none => rfl
  | some l =>
    rw [stackList, hs] at h
    exact absurd h (hwf c l hs).1

theorem unstack_card_total {s : GameState} (hok : StackOk s) (c : CardId) :
    ∃ u, _unstack_card s c = some u := by
  cases hso : (s.card c).stacked_on with
  | none => exact ⟨s, unstack_card_of_unstacked hso⟩
  | some q =>
    have hmem := (hok c q).1 hso
    obtain ⟨l, hl⟩ : ∃ l, (s.card q).stack = some l := by
      cases h : (s.card q).stack with
      | none => rw [stackList, h] at hmem; exact absurd hmem (List.not_mem_nil c)
      | some l => exact ⟨l, rfl⟩
    have hql : ((s.setCard c { s.card c with stacked_on := none }).card q).stack = some l := by
      by_cases hqc : q = c
      · subst hqc; simp [GameState.setCard]; exact hl
      · simp [GameState.setCard, hqc]; exact hl
    simp only [_unstack_card, hso, hql]
    by_cases hlen : (remove_item_from_array c l).length = 0
    · rw [if_pos hlen]; exact ⟨_, rfl⟩
    · rw [if_neg hlen]; exact ⟨_, rfl⟩

theorem cons_set_perm :
    ∀ (xs : List CardId) (j : Nat) (x b : CardId), xs.get? j = some b →
      (b :: xs.set j x).Perm (x :: xs) := by
  intro xs
  induction xs with
  | nil => intro j x b h; exact absurd h (by simp)
  | cons y ys ih =>
    intro j x b h
    cases j with
    | zero =>
      rw [List.get?_cons_zero] at h
      have hb : b = y := (Option.some_inj.1 h).symm
      subst hb
      rw [List.set_cons_zero]
      exact List.Perm.swap x b ys
    | succ j =>
      rw [List.get?_cons_succ] at h
      rw [List.set_cons_succ]
      have h1 : (b :: y :: ys.set j x).Perm (y :: b :: ys.set j x) := List.Perm.swap y b _
      have h2 : (y :: b :: ys.set j x).Perm (y :: x :: ys) := (ih j x b h).cons y
      have h3 : (y :: x :: ys).Perm (x :: y :: ys) := List.Perm.swap x y ys
      exact (h1.trans h2).trans h3

theorem double_set_perm :
    ∀ (l : List CardId) (i j : Nat) (a b : CardId),
      l.get? i = some a → l.get? j = some b → ((l.set i b).set j a).Perm l := by
  intro l
  induction l with
  | nil => intro i j a b hi _; exact absurd hi (by simp)
  | cons y ys ih =>
    intro i j a b hi hj
    cases i with
    | zero =>
      rw [List.get?_cons_zero] at hi
      have ha : y = a := Option.some_inj.1 hi
      cases j with
      | zero =>
        rw [List.get?_cons_zero] at hj
        have hb : y = b := Option.some_inj.1 hj
        rw [← ha, ← hb, List.set_cons_zero, List.set_cons_zero]
      | succ j =>
        rw [List.get?_cons_succ] at hj
        rw [← ha, List.set_cons_zero, List.set_cons_succ]
        exact cons_set_perm ys j y b hj
    | succ i =>
      rw [List.get?_cons_succ] at hi
      cases j with
      | zero =>
        rw [List.get?_cons_zero] at hj
        have hb : y = b := Option.some_inj.1 hj
        rw [← hb, List.set_cons_succ, List.set_cons_zero]
        exact cons_set_perm ys i y a hi
      | succ j =>
        rw [List.get?_cons_succ] at hj
        rw [List.set_cons_succ, List.set_cons_succ]
        exact (ih i j a b hi hj).cons y

theorem swapIdx_perm (l : List CardId) (i j : Nat) : (swapIdx l i j).Perm l := by
  rw [swapIdx]
  split
  · rename_i a b hi hj
    exact double_set_perm l i j a b hi hj
  · exact List.Perm.refl l

theorem fyAux_perm (r : Nat → Nat) : ∀ (k : Nat) (l : List CardId), (fyAux l r k).Perm l := by
  intro k
  induction k with
  | zero => intro l; rw [fyAux]
  | succ k ih => intro l; rw [fyAux]; exact (ih _).trans (swapIdx_perm l (k+1) (r (k+1)))

theorem fisherYates_perm (l : List CardId) (r : Nat → Nat) : (fisherYates l r).Perm l :=
  fyAux_perm r (l.length - 1) l

theorem unstackList_snapshot {c : CardId} :
    ∀ (xs : List CardId) (s : GameState), StackOk s → StacksWf s →
      (s.card c).stack = some xs →
      ∃ t, unstackList s xs = some t ∧ (t.card c).stack = none ∧
        StackOk t ∧ StacksWf t ∧ PileFrame s t ∧
        (∀ x y, y ∈ stackList t x → y ∈ stackList s x) := by
  intro xs
  induction xs with
  | nil =>
    intro s _ hwf hstack
    exact absurd rfl (hwf c [] hstack).1
  | cons x rest ih =>
    intro s hok hwf hstack
    obtain ⟨u, hu⟩ := unstack_card_total hok x
    have hmem : x ∈ stackList s c := by
      rw [stackList, hstack]; exact List.mem_cons_self x rest
    have hso : (s.card x).stacked_on = some c := (hok x c).2 hmem
    obtain ⟨hul, _, hit, hpl, hcs, hpile, hface⟩ := unstack_card_unstackLike hu
    obtain ⟨hoku, hwfu⟩ := hul.1 hok hwf
    obtain ⟨_, _, _, _, _, _, _, _, _, hqstack, _⟩ := unstack_card_some_spec hso hu
    have hsl : stackList s c = x :: rest := by rw [stackList, hstack]; rfl
    rw [hsl, List.erase_cons_head] at hqstack
    by_cases hrest : rest = []
    · subst hrest
      rw [if_pos rfl] at hqstack
      refine ⟨u, ?_, hqstack, hoku, hwfu, ⟨hit, hpl, hcs, hpile, hface⟩, hul.2.2.2.1⟩
      simp [unstackList, hu]
    · rw [if_neg hrest] at hqstack
      obtain ⟨t, hrest', htnone, hokt, hwft, hframe, hshrink⟩ := ih u hoku hwfu hqstack
      refine ⟨t, ?_, htnone, hokt, hwft,
        PileFrame_trans ⟨hit, hpl, hcs, hpile, hface⟩ hframe,
        fun a b hb => hul.2.2.2.1 a b (hshrink a b hb)⟩
      simp [unstackList, hu, hrest']

theorem unstack_all_from_spec (s : GameState) (c : CardId)
    (hok : StackOk s) (hwf : StacksWf s) :
    ∃ t, unstack_all_from s c = some t ∧ (t.card c).stack = none ∧
      StackOk t ∧ StacksWf t ∧ PileFrame s t ∧
      (∀ x y, y ∈ stackList t x → y ∈ stackList s x) := by
  cases h : (s.card c).stack with
  | none =>
    refine ⟨s, ?_, h, hok, hwf, PileFrame_refl s, fun _ _ hb => hb⟩
    rw [unstack_all_from, h]
  | some l =>
    obtain ⟨t, hl, h2, h3, h4, h5, h6⟩ := unstackList_snapshot l s hok hwf h
    refine ⟨t, ?_, h2, h3, h4, h5, h6⟩
    rw [unstack_all_from, h]
    exact hl

theorem unstackAllLoop_spec :
    ∀ (l : List CardId) (s : GameState), StackOk s → StacksWf s →
      ∃ t, unstackAllLoop s l = some t ∧ StackOk t ∧ StacksWf t ∧ PileFrame s t ∧
        (∀ c ∈ l, (t.card c).stack = none) ∧
        (∀ x y, y ∈ stackList t x → y ∈ stackList s x) := by
  intro l
  induction l with
  | nil =>
    intro s hok hwf
    exact ⟨s, rfl, hok, hwf, PileFrame_refl s, fun c hc => absurd hc (List.not_mem_nil c),
      fun _ _ hb => hb⟩
  | cons c rest ih =>
    intro s hok hwf
    obtain ⟨u, hu, hunone, hoku, hwfu, hfra, hshr⟩ := unstack_all_from_spec s c hok hwf
    obtain ⟨t, hrest, hokt, hwft, hfrt, hclr, hshrt⟩ := ih u hoku hwfu
    refine ⟨t, ?_, hokt, hwft, PileFrame_trans hfra hfrt, ?_,
      fun a b hb => hshr a b (hshrt a b hb)⟩
    · simp [unstackAllLoop, hu, hrest]
    · intro d hd
      rcases List.mem_cons.1 hd with hd | hd
      · subst hd
        apply stack_none_of_empty hwft
        rw [List.eq_nil_iff_forall_not_mem]
        intro b hb
        have hbu := hshrt d b hb
        rw [stackList, hunone] at hbu
        exact List.not_mem_nil b hbu
      · exact hclr d hd

/-- C5.  On a well-formed state, shuffling an existing pile succeeds for
every sequence of random draws; the pile's item list afterwards is a
permutation of the original one, no card of the pile retains a `stack`
field, nothing (in the pile or out of it) is stacked on a card of the
pile, and no card's `pile` field changes. -/
theorem shuffle_permutes_and_destroys_stacks (s : GameState) (p : PileId) (r : Nat → Nat)
    (hok : StackOk s) (hwf : StacksWf s) (hp : p ∈ s.piles) :
    ∃ u, shuffle_pile s p r = some u ∧
      (u.items p).Perm (s.items p) ∧
      (∀ c ∈ s.items p, (u.card c).stack = none) ∧
      (∀ c ∈ s.items p, ∀ x, (u.card x).stacked_on ≠ some c) ∧
      (∀ x, (u.card x).pile = (s.card x).pile) := by
  obtain ⟨t, hloop, hokt, hwft, hframe, hclear, hshrink⟩ :=
    unstackAllLoop_spec (s.items p) s hok hwf
  refine ⟨t.setItems p (fisherYates (t.items p) r), ?_, ?_, ?_, ?_, ?_⟩
  · rw [shuffle_pile, if_pos hp]
    simp [hloop]
  · have hip : t.items p = s.items p := by rw [hframe.1]
    simp only [GameState.setItems, if_pos rfl]
    rw [hip]
    exact fisherYates_perm (s.items p) r
  · intro c hc
    simpa [GameState.setItems] using hclear c hc
  · intro c hc x hcon
    simp only [GameState.setItems] at hcon
    have hmem := (hokt x c).1 hcon
    rw [stackList, hclear c hc] at hmem
    exact List.not_mem_nil x hmem
  · intro x
    simpa [GameState.setItems] using hframe.2.2.2.1 x

/-- Witness for C5 at a concrete input: shuffling pile "p" of
`exStackedPair` (cards 0 and 1, 1 stacked on 0) with the random source
that always draws index 0. -/
theorem shuffle_permutes_and_destroys_stacks_witness :
    ∃ u, shuffle_pile exStackedPair "p" (fun _ => 0) = some u ∧
      (u.items "p").Perm (exStackedPair.items "p") ∧
      (∀ c ∈ exStackedPair.items "p", (u.card c).stack = none) ∧
      (∀ c ∈ exStackedPair.items "p", ∀ x, (u.card x).stacked_on ≠ some c) ∧
      (∀ x, (u.card x).pile = (exStackedPair.card x).pile) := by
  refine shuffle_permutes_and_destroys_stacks exStackedPair "p" (fun _ => 0) ?_ ?_ ?_
  · intro x y
    have hd1 : (default : Card).stack = none := rfl
    have hd2 : (default : Card).stacked_on = none := rfl
    rcases x with _ | _ | x <;> rcases y with _ | _ | y <;>
      simp [exStackedPair, stackList, hd1, hd2]
  · intro y l hl
    rcases y with _ | _ | y <;> simp [exStackedPair] at hl
    rw [← hl]
    exact ⟨by simp, by simp⟩
  · simp [exStackedPair]

/-!  C4: stack a card on another then unstack it, pile position. -/

theorem indexOf_append_cons {b : CardId} :
    ∀ (L : List CardId), b ∉ L → ∀ t, (L ++ b :: t).indexOf b = L.length := by
  intro L
  induction L with
  | nil => intro _ t; simp
  | cons x L ih =>
    intro hb t
    have hxb : b ≠ x := fun h => hb (by rw [h]; exact List.mem_cons_self x L)
    have hbL : b ∉ L := fun h => hb (List.mem_cons_of_mem x h)
    show (x :: (L ++ b :: t)).indexOf b = L.length + 1
    rw [List.indexOf_cons_ne _ (Ne.symm hxb), ih hbL t]

theorem jsIndexOf_split (L t : List CardId) (b : CardId) (hb : b ∉ L) :
    jsIndexOf (L ++ b :: t) b = (L.length : Int) := by
  rw [jsIndexOf, if_pos (by simp)]
  exact_mod_cast indexOf_append_cons L hb t

theorem insertIdx_append_length :
    ∀ (X Y : List CardId) (x : CardId), (X ++ Y).insertIdx X.length x = X ++ x :: Y := by
  intro X
  induction X with
  | nil => intro Y x; rfl
  | cons a X ih =>
    intro Y x
    show (a :: (X ++ Y)).insertIdx (X.length + 1) x = a :: (X ++ x :: Y)
    rw [List.insertIdx_succ_cons, ih Y x]

theorem spliceInsert_prefix_length (X Y : List CardId) (x : CardId) :
    spliceInsert (X ++ Y) (X.length : Int) x = X ++ x :: Y := by
  rw [spliceInsert]
  have h0 : ¬ ((X.length : Int) < 0) := by omega
  rw [if_neg h0]
  have h2 : (X.length : Int).toNat = X.length := Int.toNat_natCast _
  rw [h2]
  have h3 : min X.length (X ++ Y).length = X.length := Nat.min_eq_left (by simp)
  rw [h3]
  exact insertIdx_append_length X Y x

theorem spliceInsert_mid (L S R : List CardId) (b a : CardId) :
    spliceInsert (L ++ b :: (S ++ R)) ((L.length : Int) + 1 + (S.length : Int)) a =
      L ++ b :: (S ++ a :: R) := by
  have h1 : (L.length : Int) + 1 + (S.length : Int) = ((L ++ b :: S).length : Int) := by
    push_cast [List.length_append, List.length_cons]
    ring
  have h2 : L ++ b :: (S ++ R) = (L ++ b :: S) ++ R := by simp
  have h3 : (L ++ b :: S) ++ a :: R = L ++ b :: (S ++ a :: R) := by simp
  rw [h1, h2, spliceInsert_prefix_length, h3]

theorem removeStackAux_free {s : GameState} {a : CardId}
    (hp : (s.card a).pile = none) (hs : (s.card a).stack = none) :
    ∀ k, 1 ≤ k → removeStackAux k s [a] = some s := by
  intro k hk
  obtain ⟨m, rfl⟩ : ∃ m, k = m + 1 := ⟨k - 1, by omega⟩
  show removeStackList (removeStackAux m) s [a] = some s
  rw [removeStackList]
  simp [_remove_card_from_pile, hp, stackList, hs, removeStackAux_nil, removeStackList]

theorem removeStackAux_single {s : GameState} {a : CardId} {p : PileId}
    (hp : (s.card a).pile = some p) (hpin : p ∈ s.piles) (hs : (s.card a).stack = none) :
    ∀ k, 1 ≤ k → removeStackAux k s [a] =
      some ((s.setItems p (remove_item_from_array a (s.items p))).setCard a
        { s.card a with pile := none }) := by
  intro k hk
  obtain ⟨m, rfl⟩ : ∃ m, k = m + 1 := ⟨k - 1, by omega⟩
  have hrc : _remove_card_from_pile s a =
      some ((s.setItems p (remove_item_from_array a (s.items p))).setCard a
        { s.card a with pile := none }) := by
    simp [_remove_card_from_pile, hp, hpin]
  have hs1 : stackList ((s.setItems p (remove_item_from_array a (s.items p))).setCard a
      { s.card a with pile := none }) a = [] := by
    rw [stackList, setCard_card_self]
    simp [hs]
  show removeStackList (removeStackAux m) s [a] = some _
  rw [removeStackList]
  simp [hrc, hs1, removeStackAux_nil, removeStackList]

theorem has_stack_ancestor_none_false (s : GameState) (a : CardId) (rk : CardId → Nat)
    (hno : ∀ y, (s.card y).stacked_on ≠ some a)
    (hlt : ∀ y x, (s.card y).stacked_on = some x → x < s.nextId)
    (hrk : ∀ x y, (s.card x).stacked_on = some y → rk x < rk y) :
    ∀ n c, c ≠ a → ((Finset.range s.nextId).filter (fun x => rk c < rk x)).card + 2 ≤ n →
      has_stack_ancestor n s c a = some false := by
  intro n
  induction n with
  | zero => intro c _ hb; omega
  | succ n ih =>
    intro c hca hb
    rw [has_stack_ancestor, if_neg hca]
    cases hso : (s.card c).stacked_on with
    | none => rfl
    | some q =>
      have hqa : q ≠ a := fun h => hno c (h ▸ hso)
      have hqlt : q < s.nextId := hlt c q hso
      have hrkq : rk c < rk q := hrk c q hso
      have hqmem : q ∈ (Finset.range s.nextId).filter (fun x => rk c < rk x) :=
        Finset.mem_filter.2 ⟨Finset.mem_range.2 hqlt, hrkq⟩
      have hsub : (Finset.range s.nextId).filter (fun x => rk q < rk x) ⊆
          ((Finset.range s.nextId).filter (fun x => rk c < rk x)).erase q := by
        intro x hx
        rw [Finset.mem_filter, Finset.mem_range] at hx
        refine Finset.mem_erase.2 ⟨?_, Finset.mem_filter.2
          ⟨Finset.mem_range.2 hx.1, lt_trans hrkq hx.2⟩⟩
        intro h
        exact absurd (h ▸ hx.2) (lt_irrefl _)
      have hcard : ((Finset.range s.nextId).filter (fun x => rk q < rk x)).card + 1 ≤
          ((Finset.range s.nextId).filter (fun x => rk c < rk x)).card := by
        have h1 := Finset.card_le_card hsub
        have h2 := Finset.card_erase_of_mem hqmem
        have h3 : 1 ≤ ((Finset.range s.nextId).filter (fun x => rk c < rk x)).card :=
          Finset.card_pos.2 ⟨q, hqmem⟩
        omega
      exact ih q hqa (by omega)

theorem insert_after_clean (k : Nat) (s s1 : GameState) (a b : CardId) (p : PileId)
    (L S R : List CardId)
    (hanc : has_stack_ancestor k s b a = some false)
    (hrm : removeStackAux k s [a] = some s1)
    (hso : (s1.card a).stacked_on = none)
    (hstk : (s1.card a).stack = none)
    (hbp : (s1.card b).pile = some p)
    (hp : p ∈ s1.piles)
    (hSL : stackList s1 b = S)
    (hitems : s1.items p = L ++ b :: S ++ R)
    (hbL : b ∉ L) :
    insert_stack_into_pile_after (k+1) s a b =
      some ((s1.setItems p (L ++ b :: S ++ a :: R)).setCard a
        { s1.card a with pile := some p }) := by
  rw [insert_stack_into_pile_after]
  simp [hanc, hrm, hso, hbp, hSL, hitems, hp, jsIndexOf_split L (S ++ R) b hbL,
    setItems_card, setCard_card_self, hstk]
  rw [spliceInsert_mid L S R b a]

/-- C4 (counterexample to the unamended claim).  In `exStackedPair` card
1 sits in pile "p" and card 0 is a distinct card, but card 1 is stacked
on card 0, so the insertion inside `stack_card_on_card(0, 1)` is the
ancestor-guard no-op; after the follow-up `unstack_card(0)` the pile
order is still `[0, 1]`: card 0 sits at index 0, before card 1 instead
of directly after it and its (empty) remaining stack. -/
theorem stack_then_unstack_position_counterexample :
    (exStackedPair.card 1).pile = some "p" ∧ (0 : CardId) ≠ 1 ∧
    stack_card_on_card 10 exStackedPair 0 1 = some (.ok cxStack1) ∧
    unstack_card 10 cxStack1 0 = some cxStack2 ∧
    cxStack2.items "p" = [0, 1] ∧
    stackList cxStack2 1 = [] ∧
    jsIndexOf (cxStack2.items "p") 0 ≠
      jsIndexOf (cxStack2.items "p") 1 + 1 + (stackList cxStack2 1).length := by
  refine ⟨rfl, by decide, rfl, rfl, by decide, rfl, by decide⟩


/-!  Rank and subtree machinery for the general C4 theorem. -/

theorem stackList_eq_of_fields {t u : GameState} (h : StackFieldsEq t u) (y : CardId) :
    stackList u y = stackList t y := by
  rw [stackList, stackList, (h y).2]

theorem desc_congr_of_fields {t u : GameState} (h : StackFieldsEq t u) (c x : CardId) :
    Desc u c x ↔ Desc t c x := by
  rw [Desc, Desc]
  constructor
  · exact Relation.ReflTransGen.mono (fun a b hab => by rwa [stRel, (h a).1] at hab)
  · exact Relation.ReflTransGen.mono (fun a b hab => by rwa [stRel, ← (h a).1] at hab)

theorem descList_congr_of_fields {t u : GameState} (h : StackFieldsEq t u)
    (l : List CardId) (x : CardId) : DescList u l x ↔ DescList t l x := by
  rw [DescList, DescList]
  constructor
  · rintro ⟨c, hc, hd⟩; exact ⟨c, hc, (desc_congr_of_fields h c x).1 hd⟩
  · rintro ⟨c, hc, hd⟩; exact ⟨c, hc, (desc_congr_of_fields h c x).2 hd⟩

theorem rankData_congr_of_fields {t u : GameState} {rk : CardId → Nat} {N : Nat}
    (h : StackFieldsEq t u) (hrd : RankData t rk N) : RankData u rk N := by
  refine ⟨?_, ?_, ?_⟩
  · intro x y hxy
    rw [stRel, (h x).1] at hxy
    exact hrd.1 x y hxy
  · intro y x hyx
    rw [(h y).1] at hyx
    exact hrd.2.1 y x hyx
  · intro y x hyx
    rw [stackList_eq_of_fields h] at hyx
    exact hrd.2.2 y x hyx

theorem downcnt_le (rk : CardId → Nat) (N : Nat) (c : CardId) : downcnt rk N c ≤ N := by
  rw [downcnt]
  exact le_trans (Finset.card_filter_le _ _) (le_of_eq (Finset.card_range N))

theorem upcnt_le (rk : CardId → Nat) (N : Nat) (c : CardId) : upcnt rk N c ≤ N := by
  rw [upcnt]
  exact le_trans (Finset.card_filter_le _ _) (le_of_eq (Finset.card_range N))

theorem downcnt_lt {rk : CardId → Nat} {N : Nat} {x c : CardId}
    (hxN : x < N) (hxc : rk x < rk c) : downcnt rk N x < downcnt rk N c := by
  rw [downcnt, downcnt]
  have hsub : (Finset.range N).filter (fun y => rk y < rk x) ⊆
      (Finset.range N).filter (fun y => rk y < rk c) := by
    intro y hy
    rw [Finset.mem_filter] at hy ⊢
    exact ⟨hy.1, lt_trans hy.2 hxc⟩
  refine Finset.card_lt_card ((Finset.ssubset_iff_of_subset hsub).2 ⟨x, ?_, ?_⟩)
  · rw [Finset.mem_filter]
    exact ⟨Finset.mem_range.2 hxN, hxc⟩
  · rw [Finset.mem_filter]
    exact fun hcon => absurd hcon.2 (lt_irrefl _)

theorem upcnt_lt {rk : CardId → Nat} {N : Nat} {c q : CardId}
    (hqN : q < N) (hcq : rk c < rk q) : upcnt rk N q < upcnt rk N c := by
  rw [upcnt, upcnt]
  have hsub : (Finset.range N).filter (fun y => rk q < rk y) ⊆
      (Finset.range N).filter (fun y => rk c < rk y) := by
    intro y hy
    rw [Finset.mem_filter] at hy ⊢
    exact ⟨hy.1, lt_trans hcq hy.2⟩
  refine Finset.card_lt_card ((Finset.ssubset_iff_of_subset hsub).2 ⟨q, ?_, ?_⟩)
  · rw [Finset.mem_filter]
    exact ⟨Finset.mem_range.2 hqN, hcq⟩
  · rw [Finset.mem_filter]
    exact fun hcon => absurd hcon.2 (lt_irrefl _)

theorem rank_le_of_desc {t : GameState} {rk : CardId → Nat} {N : Nat}
    (hrd : RankData t rk N) {c x : CardId} (h : Desc t c x) : rk x ≤ rk c := by
  rw [Desc] at h
  induction h with
  | refl => exact le_refl _
  | tail _ hstep ih => exact le_trans ih (le_of_lt (hrd.1 _ _ hstep))

theorem not_desc_of_child {t : GameState} {rk : CardId → Nat} {N : Nat}
    (hrd : RankData t rk N) {x c : CardId} (hxc : stRel t x c) : ¬ Desc t x c :=
  fun h => absurd (rank_le_of_desc hrd h) (not_le.2 (hrd.1 x c hxc))

theorem stRel_right_unique (t : GameState) :
    ∀ {a b c : CardId}, stRel t a b → stRel t a c → b = c := by
  intro a b c hab hac
  rw [stRel] at hab hac
  rw [hab] at hac
  exact Option.some_inj.1 hac

theorem desc_disjoint_siblings {t : GameState} {rk : CardId → Nat} {N : Nat}
    (hrd : RankData t rk N) {x x2 par z : CardId}
    (hx : stRel t x par) (hx2 : stRel t x2 par) (hne : x ≠ x2)
    (hzx : Desc t x z) (hzx2 : Desc t x2 z) : False := by
  rw [Desc] at hzx hzx2
  have hru : Relator.RightUnique (stRel t) := by
    intro a b c hab hac
    exact stRel_right_unique t hab hac
  rcases Relation.ReflTransGen.total_of_right_unique hru hzx hzx2 with hcomp | hcomp
  · rcases Relation.ReflTransGen.cases_head hcomp with h1 | ⟨m, hm1, hm2⟩
    · exact hne h1
    · have hmp : m = par := stRel_right_unique t hm1 hx
      rw [hmp] at hm2
      have h3 : rk par ≤ rk x2 := rank_le_of_desc hrd hm2
      exact absurd h3 (not_le.2 (hrd.1 x2 par hx2))
  · rcases Relation.ReflTransGen.cases_head hcomp with h1 | ⟨m, hm1, hm2⟩
    · exact hne h1.symm
    · have hmp : m = par := stRel_right_unique t hm1 hx2
      rw [hmp] at hm2
      have h3 : rk par ≤ rk x := rank_le_of_desc hrd hm2
      exact absurd h3 (not_le.2 (hrd.1 x par hx))

theorem desc_iff_children {t : GameState} (hok : StackOk t) (c x : CardId) :
    Desc t c x ↔ x = c ∨ ∃ y ∈ stackList t c, Desc t y x := by
  constructor
  · intro h
    rw [Desc] at h
    rcases Relation.ReflTransGen.cases_tail h with h1 | ⟨m, hm1, hm2⟩
    · exact Or.inl h1.symm
    · exact Or.inr ⟨m, (hok m c).1 hm2, hm1⟩
  · rintro (rfl | ⟨y, hy, hdy⟩)
    · exact Relation.ReflTransGen.refl
    · exact Relation.ReflTransGen.tail hdy ((hok y c).2 hy)

theorem descList_cons {t : GameState} {c : CardId} {rest : List CardId} {x : CardId} :
    DescList t (c :: rest) x ↔ Desc t c x ∨ DescList t rest x := by
  rw [DescList, DescList]
  constructor
  · rintro ⟨d, hd, hdx⟩
    rcases List.mem_cons.1 hd with rfl | hd2
    · exact Or.inl hdx
    · exact Or.inr ⟨d, hd2, hdx⟩
  · rintro (h | ⟨d, hd, hdx⟩)
    · exact ⟨c, List.mem_cons_self c rest, h⟩
    · exact ⟨d, List.mem_cons_of_mem c hd, hdx⟩

theorem descList_nil {t : GameState} {x : CardId} : ¬ DescList t [] x := by
  rintro ⟨d, hd, _⟩
  exact List.not_mem_nil d hd

theorem has_stack_ancestor_unreach {t : GameState} {rk : CardId → Nat} {N : Nat}
    (hrd : RankData t rk N) :
    ∀ n c a, ¬ Desc t a c → upcnt rk N c + 2 ≤ n →
      has_stack_ancestor n t c a = some false := by
  intro n
  induction n with
  | zero => intro c a _ hb; omega
  | succ n ih =>
    intro c a hnr hb
    have hca : c ≠ a := fun h => hnr (h ▸ Relation.ReflTransGen.refl)
    rw [has_stack_ancestor, if_neg hca]
    cases hso : (t.card c).stacked_on with
    | none => rfl
    | some q =>
      have hstep : stRel t c q := hso
      have hnr2 : ¬ Desc t a q := fun h => hnr (Relation.ReflTransGen.head hstep h)
      have hqN : q < N := hrd.2.1 c q hso
      have hupq : upcnt rk N q < upcnt rk N c := upcnt_lt hqN (hrd.1 c q hstep)
      exact ih q a hnr2 (by omega)

theorem removeStackAux_noop {t : GameState} {rk : CardId → Nat} {N : Nat}
    (hrd : RankData t rk N) (hok : StackOk t) :
    ∀ n l, (∀ c ∈ l, ∀ x, Desc t c x → (t.card x).pile = none) →
      (∀ c ∈ l, downcnt rk N c + 2 ≤ n) →
      removeStackAux n t l = some t := by
  intro n
  induction n using Nat.strong_induction_on with
  | _ n ih =>
    intro l
    induction l with
    | nil => intro _ _; exact removeStackAux_nil n t
    | cons c rest ihl =>
      intro hdesc hfuel
      obtain ⟨m, rfl⟩ : ∃ m, n = m + 1 :=
        ⟨n - 1, by have := hfuel c (List.mem_cons_self c rest); omega⟩
      have hcpile : (t.card c).pile = none :=
        hdesc c (List.mem_cons_self c rest) c Relation.ReflTransGen.refl
      have hrc : _remove_card_from_pile t c = some t := by
        simp [_remove_card_from_pile, hcpile]
      have hchild : removeStackAux m t (stackList t c) = some t := by
        apply ih m (Nat.lt_succ_self m)
        · intro y hy x hx
          exact hdesc c (List.mem_cons_self c rest) x
            (Relation.ReflTransGen.tail hx ((hok y c).2 hy))
        · intro y hy
          have hyN : y < N := hrd.2.2 c y hy
          have hrky : rk y < rk c := hrd.1 y c ((hok y c).2 hy)
          have h1 := hfuel c (List.mem_cons_self c rest)
          have h2 := downcnt_lt hyN hrky
          omega
      have hrest : removeStackList (removeStackAux m) t rest = some t := by
        apply ihl
        · intro d hd; exact hdesc d (List.mem_cons_of_mem c hd)
        · intro d hd; exact hfuel d (List.mem_cons_of_mem c hd)
      show removeStackList (removeStackAux m) t (c :: rest) = some t
      rw [removeStackList]
      simp [hrc, hchild, hrest]

theorem remove_card_clean {t : GameState} (c : CardId)
    (hpo : PileOk t) (hin : ItemsNodup t) :
    ∃ t1, _remove_card_from_pile t c = some t1 ∧
      StackFieldsEq t t1 ∧
      (t1.card c).pile = none ∧
      (∀ x, x ≠ c → (t1.card x).pile = (t.card x).pile) ∧
      (∀ q x, x ∈ t1.items q ↔ x ∈ t.items q ∧ x ≠ c) ∧
      (∀ q, List.Sublist (t1.items q) (t.items q)) ∧
      PileOk t1 ∧ ItemsNodup t1 := by
  cases hcp : (t.card c).pile with
  | none =>
    have hnm : ∀ q, c ∉ t.items q := by
      intro q hq
      have := (hpo c q).1.1 hq
      rw [hcp] at this
      exact Option.noConfusion this
    refine ⟨t, by simp [_remove_card_from_pile, hcp], StackFieldsEq_rfl t, hcp,
      fun _ _ => rfl, ?_, fun q => List.Sublist.refl _, hpo, hin⟩
    intro q x
    constructor
    · intro hx
      refine ⟨hx, ?_⟩
      rintro rfl
      exact hnm q hx
    · exact fun h => h.1
  | some pc =>
    have hpcin : pc ∈ t.piles := (hpo c pc).2 hcp
    have hnm : ∀ q, q ≠ pc → c ∉ t.items q := by
      intro q hq hcq
      have := (hpo c q).1.1 hcq
      rw [hcp] at this
      exact hq (Option.some_inj.1 this).symm
    refine ⟨(t.setItems pc (remove_item_from_array c (t.items pc))).setCard c
      { t.card c with pile := none }, ?_, ?_, ?_, ?_, ?_, ?_, ?_, ?_⟩
    · simp [_remove_card_from_pile, hcp, hpcin]
    · intro x
      by_cases hx : x = c <;> simp [GameState.setCard, GameState.setItems, hx]
    · simp [GameState.setCard]
    · intro x hx
      simp [GameState.setCard, GameState.setItems, hx]
    · intro q x
      by_cases hq : q = pc
      · subst hq
        rw [show ((t.setItems q (remove_item_from_array c (t.items q))).setCard c
            { t.card c with pile := none }).items q = remove_item_from_array c (t.items q) from
          by simp [GameState.setCard, GameState.setItems]]
        rw [remove_item_from_array]
        rw [List.Nodup.mem_erase_iff (hin q)]
        constructor
        · rintro ⟨h1, h2⟩; exact ⟨h2, h1⟩
        · rintro ⟨h1, h2⟩; exact ⟨h2, h1⟩
      · rw [show ((t.setItems pc (remove_item_from_array c (t.items pc))).setCard c
            { t.card c with pile := none }).items q = t.items q from
          by simp [GameState.setCard, GameState.setItems, hq]]
        constructor
        · intro hx
          refine ⟨hx, ?_⟩
          rintro rfl
          exact hnm q hq hx
        · exact fun h => h.1
    · intro q
      by_cases hq : q = pc
      · subst hq
        rw [show ((t.setItems q (remove_item_from_array c (t.items q))).setCard c
            { t.card c with pile := none }).items q = remove_item_from_array c (t.items q) from
          by simp [GameState.setCard, GameState.setItems]]
        exact List.erase_sublist c (t.items q)
      · rw [show ((t.setItems pc (remove_item_from_array c (t.items pc))).setCard c
            { t.card c with pile := none }).items q = t.items q from
          by simp [GameState.setCard, GameState.setItems, hq]]
    · intro x q
      by_cases hx : x = c
      · subst hx
        constructor
        · constructor
          · intro hmem
            exfalso
            by_cases hq : q = pc
            · subst hq
              rw [show ((t.setItems q (remove_item_from_array x (t.items q))).setCard x
                  { t.card x with pile := none }).items q
                  = remove_item_from_array x (t.items q) from
                by simp [GameState.setCard, GameState.setItems]] at hmem
              rw [remove_item_from_array, List.Nodup.mem_erase_iff (hin q)] at hmem
              exact hmem.1 rfl
            · rw [show ((t.setItems pc (remove_item_from_array x (t.items pc))).setCard x
                  { t.card x with pile := none }).items q = t.items q from
                by simp [GameState.setCard, GameState.setItems, hq]] at hmem
              exact hnm q hq hmem
          · intro hmem
            exfalso
            rw [show (((t.setItems pc (remove_item_from_array x (t.items pc))).setCard x
                { t.card x with pile := none }).card x).pile = none from
              by simp [GameState.setCard]] at hmem
            exact Option.noConfusion hmem
        · intro hmem
          exfalso
          rw [show (((t.setItems pc (remove_item_from_array x (t.items pc))).setCard x
              { t.card x with pile := none }).card x).pile = none from
            by simp [GameState.setCard]] at hmem
          exact Option.noConfusion hmem
      · have hcard : (((t.setItems pc (remove_item_from_array c (t.items pc))).setCard c
            { t.card c with pile := none }).card x).pile = (t.card x).pile := by
          simp [GameState.setCard, GameState.setItems, hx]
        constructor
        · rw [hcard]
          by_cases hq : q = pc
          · subst hq
            rw [show ((t.setItems q (remove_item_from_array c (t.items q))).setCard c
                { t.card c with pile := none }).items q
                = remove_item_from_array c (t.items q) from
              by simp [GameState.setCard, GameState.setItems]]
            rw [remove_item_from_array, List.Nodup.mem_erase_iff (hin q)]
            constructor
            · rintro ⟨_, h2⟩; exact (hpo x q).1.1 h2
            · intro h; exact ⟨hx, (hpo x q).1.2 h⟩
          · rw [show ((t.setItems pc (remove_item_from_array c (t.items pc))).setCard c
                { t.card c with pile := none }).items q = t.items q from
              by simp [GameState.setCard, GameState.setItems, hq]]
            exact (hpo x q).1
        · rw [hcard]
          intro h
          rw [show ((t.setItems pc (remove_item_from_array c (t.items pc))).setCard c
              { t.card c with pile := none }).piles = t.piles from
            by simp [GameState.setCard, GameState.setItems]]
          exact (hpo x q).2 h
    · intro q
      by_cases hq : q = pc
      · subst hq
        rw [show ((t.setItems q (remove_item_from_array c (t.items q))).setCard c
            { t.card c with pile := none }).items q = remove_item_from_array c (t.items q) from
          by simp [GameState.setCard, GameState.setItems]]
        exact (hin q).erase c
      · rw [show ((t.setItems pc (remove_item_from_array c (t.items pc))).setCard c
            { t.card c with pile := none }).items q = t.items q from
          by simp [GameState.setCard, GameState.setItems, hq]]
        exact hin q

theorem removeStackAux_clean {rk : CardId → Nat} {N : Nat} :
    ∀ (n : Nat) (l : List CardId) (t : GameState),
      RankData t rk N → StackOk t → PileOk t → ItemsNodup t →
      (∀ c ∈ l, downcnt rk N c + 2 ≤ n) →
      ∃ u, removeStackAux n t l = some u ∧ StackFieldsEq t u ∧ PileOk u ∧ ItemsNodup u ∧
        (∀ x, DescList t l x → (u.card x).pile = none) ∧
        (∀ x, ¬ DescList t l x → (u.card x).pile = (t.card x).pile) ∧
        (∀ q x, x ∈ u.items q ↔ x ∈ t.items q ∧ ¬ DescList t l x) ∧
        (∀ q, List.Sublist (u.items q) (t.items q)) := by
  intro n
  induction n using Nat.strong_induction_on with
  | _ n ih =>
    intro l
    induction l with
    | nil =>
      intro t hrd hok hpo hin _
      refine ⟨t, removeStackAux_nil n t, StackFieldsEq_rfl t, hpo, hin, ?_, fun _ _ => rfl,
        ?_, fun q => List.Sublist.refl _⟩
      · intro x hx; exact absurd hx descList_nil
      · intro q x
        exact ⟨fun h => ⟨h, descList_nil⟩, fun h => h.1⟩
    | cons c rest ihl =>
      intro t hrd hok hpo hin hfuel
      obtain ⟨m, rfl⟩ : ∃ m, n = m + 1 :=
        ⟨n - 1, by have := hfuel c (List.mem_cons_self c rest); omega⟩
      obtain ⟨t1, E1, E2, E3, E4, E5, E6, hpo1, hin1⟩ := remove_card_clean c hpo hin
      have hrd1 : RankData t1 rk N := rankData_congr_of_fields E2 hrd
      have hok1 : StackOk t1 := StackOk_congr E2 hok
      have hstack_t1c : stackList t1 c = stackList t c := stackList_eq_of_fields E2 c
      have hchildfuel : ∀ y ∈ stackList t1 c, downcnt rk N y + 2 ≤ m := by
        intro y hy
        rw [hstack_t1c] at hy
        have hyN : y < N := hrd.2.2 c y hy
        have hrky : rk y < rk c := hrd.1 y c ((hok y c).2 hy)
        have h1 := hfuel c (List.mem_cons_self c rest)
        have h2 := downcnt_lt hyN hrky
        omega
      obtain ⟨t2, heq2, hf2, hpo2, hin2, hnone2, hpres2, hmem2, hsub2⟩ :=
        ih m (Nat.lt_succ_self m) (stackList t1 c) t1 hrd1 hok1 hpo1 hin1 hchildfuel
      have hf02 : StackFieldsEq t t2 := StackFieldsEq_trans E2 hf2
      have hrd2 : RankData t2 rk N := rankData_congr_of_fields hf02 hrd
      have hok2 : StackOk t2 := StackOk_congr hf02 hok
      have hrestfuel : ∀ d ∈ rest, downcnt rk N d + 2 ≤ m + 1 := by
        intro d hd; exact hfuel d (List.mem_cons_of_mem c hd)
      obtain ⟨u, hequ, hfu, hpou, hinu, hnoneu, hpresu, hmemu, hsubu⟩ :=
        ihl t2 hrd2 hok2 hpo2 hin2 hrestfuel
      have hchT : ∀ x, DescList t1 (stackList t1 c) x ↔ ∃ y ∈ stackList t c, Desc t y x := by
        intro x
        rw [hstack_t1c]
        exact descList_congr_of_fields E2 _ x
      have hrT : ∀ x, DescList t2 rest x ↔ DescList t rest x :=
        fun x => descList_congr_of_fields hf02 rest x
      refine ⟨u, ?_, StackFieldsEq_trans hf02 hfu, hpou, hinu, ?_, ?_, ?_, ?_⟩
      · have hrest' : removeStackList (removeStackAux m) t2 rest = some u := hequ
        show removeStackList (removeStackAux m) t (c :: rest) = some u
        rw [removeStackList]
        simp [E1, heq2, hrest']
      · intro x hDx
        rcases descList_cons.1 hDx with hD1 | hDr
        · rcases (desc_iff_children hok c x).1 hD1 with heq | ⟨y, hy, hdyx⟩
          · have h1 : (t2.card x).pile = none := by
              by_cases hch : DescList t1 (stackList t1 c) x
              · exact hnone2 x hch
              · rw [hpres2 x hch, heq]; exact E3
            by_cases hr : DescList t2 rest x
            · exact hnoneu x hr
            · rw [hpresu x hr]; exact h1
          · have hch : DescList t1 (stackList t1 c) x := (hchT x).2 ⟨y, hy, hdyx⟩
            have h1 : (t2.card x).pile = none := hnone2 x hch
            by_cases hr : DescList t2 rest x
            · exact hnoneu x hr
            · rw [hpresu x hr]; exact h1
        · exact hnoneu x ((hrT x).2 hDr)
      · intro x hnD
        have hD1 : ¬ Desc t c x := fun h => hnD (descList_cons.2 (Or.inl h))
        have hDr : ¬ DescList t rest x := fun h => hnD (descList_cons.2 (Or.inr h))
        have hxc : x ≠ c := fun h => hD1 (h ▸ Relation.ReflTransGen.refl)
        have hch : ¬ DescList t1 (stackList t1 c) x := by
          intro h
          exact hD1 ((desc_iff_children hok c x).2 (Or.inr ((hchT x).1 h)))
        have hr : ¬ DescList t2 rest x := fun h => hDr ((hrT x).1 h)
        rw [hpresu x hr, hpres2 x hch, E4 x hxc]
      · intro q x
        constructor
        · intro hx
          obtain ⟨hx2, hr⟩ := (hmemu q x).1 hx
          obtain ⟨hx1, hch⟩ := (hmem2 q x).1 hx2
          obtain ⟨hx0, hxc⟩ := (E5 q x).1 hx1
          refine ⟨hx0, ?_⟩
          intro hD
          rcases descList_cons.1 hD with hD1 | hDr
          · rcases (desc_iff_children hok c x).1 hD1 with heq | ⟨y, hy, hdyx⟩
            · exact hxc heq
            · exact hch ((hchT x).2 ⟨y, hy, hdyx⟩)
          · exact hr ((hrT x).2 hDr)
        · rintro ⟨hx0, hnD⟩
          have hD1 : ¬ Desc t c x := fun h => hnD (descList_cons.2 (Or.inl h))
          have hDr : ¬ DescList t rest x := fun h => hnD (descList_cons.2 (Or.inr h))
          have hxc : x ≠ c := fun h => hD1 (h ▸ Relation.ReflTransGen.refl)
          have hch : ¬ DescList t1 (stackList t1 c) x := by
            intro h
            exact hD1 ((desc_iff_children hok c x).2 (Or.inr ((hchT x).1 h)))
          have hr : ¬ DescList t2 rest x := fun h => hDr ((hrT x).1 h)
          exact (hmemu q x).2 ⟨(hmem2 q x).2 ⟨(E5 q x).2 ⟨hx0, hxc⟩, hch⟩, hr⟩
      · intro q
        exact ((hsubu q).trans (hsub2 q)).trans (E6 q)

theorem insertIdx_skip :
    ∀ (X Y : List CardId) (k : Nat) (x : CardId), X.length ≤ k →
      (X ++ Y).insertIdx k x = X ++ Y.insertIdx (k - X.length) x := by
  intro X
  induction X with
  | nil => intro Y k x _; simp
  | cons a X ih =>
    intro Y k x hk
    rw [List.length_cons] at hk
    obtain ⟨m, rfl⟩ : ∃ m, k = m + 1 := ⟨k - 1, by omega⟩
    show (a :: (X ++ Y)).insertIdx (m + 1) x = a :: (X ++ Y.insertIdx (m + 1 - (X.length + 1)) x)
    rw [List.insertIdx_succ_cons, ih Y m x (by omega), Nat.succ_sub_succ]

theorem spliceInsert_skip (A B : List CardId) (par x : CardId) (i : Int)
    (h : (A.length : Int) + 1 ≤ i) :
    ∃ B', spliceInsert (A ++ par :: B) i x = A ++ par :: B' ∧ List.Perm B' (x :: B) := by
  rw [spliceInsert]
  have h0 : ¬ (i < 0) := by omega
  rw [if_neg h0]
  have hlen : (A ++ par :: B).length = A.length + 1 + B.length := by
    rw [List.length_append, List.length_cons]
    omega
  have hA1 : A.length + 1 ≤ min i.toNat (A ++ par :: B).length := by
    refine le_min ?_ ?_
    · omega
    · rw [hlen]; omega
  have hkkle : min i.toNat (A ++ par :: B).length ≤ (A ++ par :: B).length := min_le_right _ _
  have hXlen : (A ++ [par]).length = A.length + 1 := by simp
  have hassoc : A ++ par :: B = (A ++ [par]) ++ B := by simp
  rw [hassoc, insertIdx_skip (A ++ [par]) B _ x (by rw [hXlen, ← hassoc]; exact hA1)]
  refine ⟨B.insertIdx (min i.toNat ((A ++ [par]) ++ B).length - (A ++ [par]).length) x, ?_, ?_⟩
  · simp
  · apply List.perm_insertIdx
    rw [hXlen, ← hassoc, hlen]
    omega

theorem sublist_eq_filter (p : CardId → Bool) :
    ∀ {s l : List CardId}, List.Sublist s l → l.Nodup →
      (∀ x, x ∈ s ↔ (x ∈ l ∧ p x = true)) → s = l.filter p := by
  intro s l hs
  induction hs with
  | slnil => intro _ _; rfl
  | cons a hsub ih =>
    intro hnd hmem
    have hanot := (List.nodup_cons.1 hnd).1
    have hpa : ¬ (p a = true) := by
      intro hpa
      have ha1 : a ∈ _ := (hmem a).2 ⟨List.mem_cons_self a _, hpa⟩
      exact hanot (hsub.subset ha1)
    rw [List.filter_cons, if_neg hpa]
    apply ih (List.nodup_cons.1 hnd).2
    intro x
    constructor
    · intro hx
      have h2 := (hmem x).1 hx
      refine ⟨?_, h2.2⟩
      rcases List.mem_cons.1 h2.1 with heq | h3
      · exact absurd (hsub.subset hx) (heq ▸ hanot)
      · exact h3
    · intro hx
      exact (hmem x).2 ⟨List.mem_cons_of_mem a hx.1, hx.2⟩
  | cons₂ a hsub ih =>
    intro hnd hmem
    have hanot := (List.nodup_cons.1 hnd).1
    have hpa : p a = true := ((hmem a).1 (List.mem_cons_self a _)).2
    rw [List.filter_cons, if_pos hpa]
    congr 1
    apply ih (List.nodup_cons.1 hnd).2
    intro x
    constructor
    · intro hx
      exact ⟨hsub.subset hx, ((hmem x).1 (List.mem_cons_of_mem a hx)).2⟩
    · intro hx
      have h2 := (hmem x).2 ⟨List.mem_cons_of_mem a hx.1, hx.2⟩
      rcases List.mem_cons.1 h2 with heq | h3
      · exact absurd hx.1 (heq ▸ hanot)
      · exact h3

theorem insertChildrenGo_clean {rk : CardId → Nat} {N : Nat} (m : Nat)
    (hsingle : InsertCleanSpec rk N m) :
    ∀ (l : List CardId) (t : GameState) (par : CardId) (p : PileId) (A B : List CardId),
      RankData t rk N → StackOk t → StacksWf t → PileOk t → ItemsNodup t →
      l.Nodup →
      (∀ x ∈ l, stRel t x par) →
      (∀ x ∈ l, ∀ y, Desc t x y → (t.card y).pile = none) →
      (∀ x ∈ l, downcnt rk N x + N + 3 ≤ m) →
      (t.card par).pile = some p →
      p ∈ t.piles →
      t.items p = A ++ par :: B →
      par ∉ A →
      ∃ u B2, insertChildrenGo (insert_stack_into_pile_after m) t l par = some u ∧
        StackFieldsEq t u ∧ u.piles = t.piles ∧ u.nextId = t.nextId ∧
        PileOk u ∧ ItemsNodup u ∧
        u.items p = A ++ par :: B2 ∧
        (∀ x, x ∈ B2 → x ∈ B ∨ ∃ c ∈ l, Desc t c x) ∧
        (∀ q, q ≠ p → u.items q = t.items q) ∧
        (∀ x, ¬ (∃ c ∈ l, Desc t c x) → (u.card x).pile = (t.card x).pile) := by
  intro l
  induction l with
  | nil =>
    intro t par p A B _ _ _ hpo hin _ _ _ _ _ _ hitems hparA
    refine ⟨t, B, rfl, StackFieldsEq_rfl t, rfl, rfl, hpo, hin, hitems,
      fun x hx => Or.inl hx, fun _ _ => rfl, fun _ _ => rfl⟩
  | cons x rest ihl =>
    intro t par p A B hrd hok hwf hpo hin hlnd hl hdesc hfuel hpp hpin hitems hparA
    obtain ⟨t1, B1, heq1, hf1, hpl1, hnid1, hpo1, hin1, hit1, hmem1, hoth1, hpf1⟩ :=
      hsingle t x par p A B hrd hok hwf hpo hin (hl x (List.mem_cons_self x rest))
        (hdesc x (List.mem_cons_self x rest)) hpp hpin hitems hparA
        (hfuel x (List.mem_cons_self x rest))
    have hrd1 : RankData t1 rk N := rankData_congr_of_fields hf1 hrd
    have hok1 : StackOk t1 := StackOk_congr hf1 hok
    have hwf1 : StacksWf t1 := StacksWf_congr hf1 hwf
    have hxnotr : x ∉ rest := (List.nodup_cons.1 hlnd).1
    have hdisj : ∀ x2 ∈ rest, ∀ y, Desc t x2 y → ¬ Desc t x y := by
      intro x2 hx2 y hy2 hyx
      exact desc_disjoint_siblings hrd (hl x (List.mem_cons_self x rest))
        (hl x2 (List.mem_cons_of_mem x hx2))
        (fun h => hxnotr (h ▸ hx2)) hyx hy2
    obtain ⟨u, B2, hequ, hfu, hplu, hnidu, hpou, hinu, hitu, hmemu, hothu, hpfu⟩ :=
      ihl t1 par p A B1 hrd1 hok1 hwf1 hpo1 hin1 (List.nodup_cons.1 hlnd).2
        (by
          intro x2 hx2
          rw [stRel, (hf1 x2).1]
          exact hl x2 (List.mem_cons_of_mem x hx2))
        (by
          intro x2 hx2 y hy
          have hy' : Desc t x2 y := (desc_congr_of_fields hf1 x2 y).1 hy
          rw [hpf1 y (hdisj x2 hx2 y hy')]
          exact hdesc x2 (List.mem_cons_of_mem x hx2) y hy')
        (fun x2 hx2 => hfuel x2 (List.mem_cons_of_mem x hx2))
        (by
          rw [hpf1 par (not_desc_of_child hrd (hl x (List.mem_cons_self x rest)))]
          exact hpp)
        (by rw [hpl1]; exact hpin)
        hit1 hparA
    refine ⟨u, B2, ?_, StackFieldsEq_trans hf1 hfu, hplu.trans hpl1, hnidu.trans hnid1,
      hpou, hinu, hitu, ?_, ?_, ?_⟩
    · rw [insertChildrenGo]
      simp [heq1, hequ]
    · intro z hz
      rcases hmemu z hz with hz1 | ⟨c, hc, hdc⟩
      · rcases hmem1 z hz1 with hz2 | hdz
        · exact Or.inl hz2
        · exact Or.inr ⟨x, List.mem_cons_self x rest, hdz⟩
      · exact Or.inr ⟨c, List.mem_cons_of_mem x hc,
          (desc_congr_of_fields hf1 c z).1 hdc⟩
    · intro q hq
      rw [hothu q hq, hoth1 q hq]
    · intro z hnz
      have hnx : ¬ Desc t x z := fun h => hnz ⟨x, List.mem_cons_self x rest, h⟩
      have hnr : ¬ (∃ c ∈ rest, Desc t1 c z) := by
        rintro ⟨c, hc, hdc⟩
        exact hnz ⟨c, List.mem_cons_of_mem x hc, (desc_congr_of_fields hf1 c z).1 hdc⟩
      rw [hpfu z hnr, hpf1 z hnx]

theorem insert_clean (rk : CardId → Nat) (N : Nat) : ∀ n, InsertCleanSpec rk N n := by
  intro n
  induction n using Nat.strong_induction_on with
  | _ n ih =>
    intro t c par p A B hrd hok hwf hpo hin hcp hdesc hpp hpin hitems hparA hfuel
    obtain ⟨m, rfl⟩ : ∃ m, n = m + 1 := ⟨n - 1, by omega⟩
    have hnr : ¬ Desc t c par := not_desc_of_child hrd hcp
    have hanc : has_stack_ancestor m t par c = some false := by
      apply has_stack_ancestor_unreach hrd m par c hnr
      have := upcnt_le rk N par
      omega
    have hrm : removeStackAux m t [c] = some t := by
      apply removeStackAux_noop hrd hok m [c]
      · intro d hd y hy
        have hdc : d = c := by simpa using hd
        exact hdesc y (hdc ▸ hy)
      · intro d hd
        have hdc : d = c := by simpa using hd
        rw [hdc]
        omega
    have hcpile : (t.card c).pile = none := hdesc c Relation.ReflTransGen.refl
    have hcnotin : ∀ q, c ∉ t.items q := by
      intro q hq
      have h1 := (hpo c q).1.1 hq
      rw [hcpile] at h1
      exact Option.noConfusion h1
    have hcpar : c ≠ par := by
      intro h
      exact absurd (hrd.1 c par hcp) (by rw [h]; exact lt_irrefl _)
    obtain ⟨B1, hsp, hperm⟩ := spliceInsert_skip A B par c
      ((A.length : Int) + 1 + ((stackList t par).length : Int)) (by
        have h1 : (0 : Int) ≤ ((stackList t par).length : Int) := Int.natCast_nonneg _
        omega)
    obtain ⟨t4, ht4⟩ :
        ∃ t4, t4 = (t.setItems p (A ++ par :: B1)).setCard c
          { t.card c with pile := some p } := ⟨_, rfl⟩
    have hf4 : StackFieldsEq t t4 := by
      rw [ht4]
      intro z
      by_cases hz : z = c <;> simp [GameState.setCard, GameState.setItems, hz]
    have hpl4 : t4.piles = t.piles := by rw [ht4]; rfl
    have hnid4 : t4.nextId = t.nextId := by rw [ht4]; rfl
    have hit4p : t4.items p = A ++ par :: B1 := by
      rw [ht4, setCard_items, setItems_items_self]
    have hit4o : ∀ q, q ≠ p → t4.items q = t.items q := by
      intro q hq
      rw [ht4, setCard_items, setItems_items_ne _ _ hq]
    have hc4pile : (t4.card c).pile = some p := by rw [ht4, setCard_card_self]
    have h4x : ∀ z, z ≠ c → t4.card z = t.card z := by
      intro z hz
      rw [ht4, setCard_card_ne _ _ hz, setItems_card]
    have hmem4p : ∀ z, z ∈ t4.items p ↔ z = c ∨ z ∈ t.items p := by
      intro z
      rw [hit4p, hitems]
      simp only [List.mem_append, List.mem_cons, hperm.mem_iff]
      tauto
    have hpermAll : List.Perm (A ++ par :: B1) (c :: (A ++ par :: B)) := by
      have p1 : List.Perm (A ++ par :: B1) (A ++ par :: c :: B) :=
        List.Perm.append_left A (List.Perm.cons par hperm)
      have p3 : List.Perm ((A ++ [par]) ++ c :: B) (c :: ((A ++ [par]) ++ B)) :=
        List.perm_middle
      have p2 : A ++ par :: c :: B = (A ++ [par]) ++ c :: B := by simp
      have p4 : c :: ((A ++ [par]) ++ B) = c :: (A ++ par :: B) := by simp
      rw [← p2, p4] at p3
      exact p1.trans p3
    have hin4 : ItemsNodup t4 := by
      intro q
      by_cases hq : q = p
      · subst hq
        rw [hit4p]
        refine (hpermAll.nodup_iff).2 (List.nodup_cons.2 ⟨?_, ?_⟩)
        · rw [← hitems]; exact hcnotin q
        · rw [← hitems]; exact hin q
      · rw [hit4o q hq]; exact hin q
    have hpo4 : PileOk t4 := by
      intro z q
      by_cases hz : z = c
      · subst hz
        constructor
        · constructor
          · intro hmem
            by_cases hq : q = p
            · rw [hq, hc4pile]
            · rw [hit4o q hq] at hmem
              exact absurd hmem (hcnotin q)
          · intro hpil
            rw [hc4pile] at hpil
            have hq : q = p := (Option.some_inj.1 hpil).symm
            subst hq
            rw [hit4p]
            have hcb1 : z ∈ B1 := hperm.mem_iff.2 (List.mem_cons_self z B)
            exact List.mem_append_right _ (List.mem_cons_of_mem par hcb1)
        · intro hpil
          rw [hc4pile] at hpil
          rw [hpl4, ← Option.some_inj.1 hpil]
          exact hpin
      · have hcard := h4x z hz
        constructor
        · rw [hcard]
          by_cases hq : q = p
          · subst hq
            constructor
            · intro hm
              rcases (hmem4p z).1 hm with h1 | h1
              · exact absurd h1 hz
              · exact (hpo z q).1.1 h1
            · intro h1
              exact (hmem4p z).2 (Or.inr ((hpo z q).1.2 h1))
          · rw [hit4o q hq]
            exact (hpo z q).1
        · rw [hcard, hpl4]
          exact (hpo z q).2
    rcases hstk : (t.card c).stack with _ | l
    · have heq : insert_stack_into_pile_after (m+1) t c par = some t4 := by
        rw [insert_stack_into_pile_after, ht4]
        simp [hanc, hrm, (show (t.card c).stacked_on = some par from hcp), hpp, hpin, hitems,
          jsIndexOf_split A B par hparA, hsp, hstk, setItems_card, setCard_card_self]
      refine ⟨t4, B1, heq, hf4, hpl4, hnid4, hpo4, hin4, hit4p, ?_, hit4o, ?_⟩
      · intro z hz
        rcases List.mem_cons.1 (hperm.subset hz) with h1 | h1
        · exact Or.inr (h1 ▸ Relation.ReflTransGen.refl)
        · exact Or.inl h1
      · intro z hnz
        have hzc : z ≠ c := fun h => hnz (h ▸ Relation.ReflTransGen.refl)
        rw [h4x z hzc]
    · have hstackl : stackList t c = l := by rw [stackList, hstk]; rfl
      have hlnd : l.Nodup := (hwf c l hstk).2
      have hcB1 : c ∈ B1 := hperm.mem_iff.2 (List.mem_cons_self c B)
      obtain ⟨B1a, B1b, hB1⟩ := List.append_of_mem hcB1
      have hndB1 : B1.Nodup := by
        refine (hperm.nodup_iff).2 (List.nodup_cons.2 ⟨?_, ?_⟩)
        · intro hcB
          exact hcnotin p (by
            rw [hitems]
            exact List.mem_append_right _ (List.mem_cons_of_mem par hcB))
        · have h1 := hin p
          rw [hitems] at h1
          exact (h1.of_append_right).of_cons
      have hcB1a : c ∉ B1a := by
        intro hmem
        rw [hB1] at hndB1
        exact List.disjoint_of_nodup_append hndB1 hmem (List.mem_cons_self c B1b)
      have hrd4 : RankData t4 rk N := rankData_congr_of_fields hf4 hrd
      have hok4 : StackOk t4 := StackOk_congr hf4 hok
      have hwf4 : StacksWf t4 := StacksWf_congr hf4 hwf
      have hitems4 : t4.items p = (A ++ par :: B1a) ++ c :: B1b := by
        rw [hit4p, hB1]
        simp
      have hcnotA : c ∉ A ++ par :: B1a := by
        intro hmem
        rcases List.mem_append.1 hmem with h1 | h1
        · exact hcnotin p (by rw [hitems]; exact List.mem_append_left _ h1)
        · rcases List.mem_cons.1 h1 with h2 | h2
          · exact hcpar h2
          · exact hcB1a h2
      have hchildrel : ∀ x ∈ l, stRel t x c := by
        intro x hx
        exact (hok x c).2 (hstackl ▸ hx)
      obtain ⟨u, B2c, hequ, hfu, hplu, hnidu, hpou, hinu, hitu, hmemu, hothu, hpfu⟩ :=
        insertChildrenGo_clean m (ih m (Nat.lt_succ_self m)) l t4 c p (A ++ par :: B1a) B1b
          hrd4 hok4 hwf4 hpo4 hin4 hlnd
          (by
            intro x hx
            rw [stRel, (hf4 x).1]
            exact hchildrel x hx)
          (by
            intro x hx y hy
            have hy' : Desc t x y := (desc_congr_of_fields hf4 x y).1 hy
            have hyc : Desc t c y := Relation.ReflTransGen.tail hy' (hchildrel x hx)
            have hyne : y ≠ c := by
              intro h
              have h2 : Desc t x c := h ▸ hy'
              exact absurd (rank_le_of_desc hrd h2) (not_le.2 (hrd.1 x c (hchildrel x hx)))
            rw [h4x y hyne]
            exact hdesc y hyc)
          (by
            intro x hx
            have hxN : x < N := hrd.2.2 c x (hstackl ▸ hx)
            have h1 := downcnt_lt hxN (hrd.1 x c (hchildrel x hx))
            omega)
          hc4pile (by rw [hpl4]; exact hpin) hitems4 hcnotA
      have heq : insert_stack_into_pile_after (m+1) t c par =
          insertChildrenGo (insert_stack_into_pile_after m) t4 l c := by
        rw [insert_stack_into_pile_after, ht4]
        simp [hanc, hrm, (show (t.card c).stacked_on = some par from hcp), hpp, hpin, hitems,
          jsIndexOf_split A B par hparA, hsp, hstk, setItems_card, setCard_card_self]
      refine ⟨u, B1a ++ c :: B2c, by rw [heq]; exact hequ, StackFieldsEq_trans hf4 hfu,
        hplu.trans hpl4, hnidu.trans hnid4, hpou, hinu, ?_, ?_, ?_, ?_⟩
      · rw [hitu]
        simp
      · intro z hz
        have hB1mem : ∀ w, w ∈ B1 → w ∈ B ∨ Desc t c w := by
          intro w hw
          rcases List.mem_cons.1 (hperm.subset hw) with h1 | h1
          · exact Or.inr (h1 ▸ Relation.ReflTransGen.refl)
          · exact Or.inl h1
        rcases List.mem_append.1 hz with h1 | h1
        · exact hB1mem z (by rw [hB1]; exact List.mem_append_left _ h1)
        · rcases List.mem_cons.1 h1 with h2 | h2
          · exact Or.inr (h2 ▸ Relation.ReflTransGen.refl)
          · rcases hmemu z h2 with h3 | ⟨d, hd, hdz⟩
            · exact hB1mem z (by
                rw [hB1]
                exact List.mem_append_right _ (List.mem_cons_of_mem c h3))
            · have hdz' : Desc t d z := (desc_congr_of_fields hf4 d z).1 hdz
              exact Or.inr (Relation.ReflTransGen.tail hdz' (hchildrel d hd))
      · intro q hq
        rw [hothu q hq, hit4o q hq]
      · intro z hnz
        have hzc : z ≠ c := fun h => hnz (h ▸ Relation.ReflTransGen.refl)
        have hnl : ¬ (∃ d ∈ l, Desc t4 d z) := by
          rintro ⟨d, hd, hdz⟩
          have hdz' : Desc t d z := (desc_congr_of_fields hf4 d z).1 hdz
          exact hnz (Relation.ReflTransGen.tail hdz' (hchildrel d hd))
        rw [hpfu z hnl, h4x z hzc]

theorem descList_singleton {t : GameState} {a x : CardId} :
    DescList t [a] x ↔ Desc t a x := by
  constructor
  · rintro ⟨c, hc, h⟩
    have hca : c = a := by simpa using hc
    exact hca ▸ h
  · intro h
    exact ⟨a, List.mem_cons_self a [], h⟩

theorem insert_top_clean {rk : CardId → Nat} {N : Nat} (m : Nat)
    (t : GameState) (a b : CardId) (p : PileId) (LA SB RB : List CardId)
    (hrd : RankData t rk N) (hok : StackOk t) (hwf : StacksWf t) (hpo : PileOk t)
    (hin : ItemsNodup t)
    (haso : (t.card a).stacked_on = none)
    (hnr : ¬ Desc t a b)
    (hbp : (t.card b).pile = some p)
    (hitems : t.items p = LA ++ b :: SB ++ RB)
    (hbLA : b ∉ LA)
    (hSBdesc : ∀ x ∈ SB, Desc t a x ↔ x = a)
    (hSBstack : SB.erase a = stackList t b)
    (hab : a ≠ b)
    (hfuel : 2 * N + 4 ≤ m) :
    ∃ u LA2 T,
      insert_stack_into_pile_after (m+1) t a b = some u ∧
      StackFieldsEq t u ∧ u.piles = t.piles ∧ u.nextId = t.nextId ∧
      PileOk u ∧ ItemsNodup u ∧
      u.items p = LA2 ++ b :: (stackList t b ++ a :: T) ∧
      b ∉ LA2 ∧ a ∉ LA2 ∧ a ∉ T ∧
      (u.card a).pile = some p ∧
      (∀ x, ¬ Desc t a x → (u.card x).pile = (t.card x).pile) := by
  classical
  have hpin : p ∈ t.piles := (hpo b p).2 hbp
  have hanc : has_stack_ancestor m t b a = some false := by
    apply has_stack_ancestor_unreach hrd m b a hnr
    have := upcnt_le rk N b
    omega
  obtain ⟨w, hweq, hfw, hpow, hinw, hwnone, hwpres, hwmem, hwsub⟩ :=
    removeStackAux_clean m [a] t hrd hok hpo hin (by
      intro d hd
      have hdc : d = a := by simpa using hd
      rw [hdc]
      have := downcnt_le rk N a
      omega)
  obtain ⟨_, hplw, hnidw, _, _⟩ := removeStackAux_frame m t [a] w hweq
  obtain ⟨pb, hpb⟩ : ∃ pb : CardId → Bool, ∀ x, pb x = true ↔ ¬ Desc t a x :=
    ⟨fun x => decide (¬ Desc t a x), fun x => by simp⟩
  have hpba : ¬ (pb a = true) := fun h => ((hpb a).1 h) Relation.ReflTransGen.refl
  have hndSB : SB.Nodup := by
    have h1 := hin p
    rw [hitems] at h1
    exact ((h1.of_append_left).of_append_right).of_cons
  have hwitems : w.items p = (t.items p).filter pb := by
    apply sublist_eq_filter pb (hwsub p) (hin p)
    intro x
    rw [hwmem p x, descList_singleton, ← hpb x]
  have hSBf : SB.filter pb = stackList t b := by
    rw [← hSBstack, (hndSB.erase_eq_filter a)]
    apply List.filter_congr
    intro x hx
    by_cases hxa : x = a
    · have h1 : ¬ (pb x = true) := fun h =>
        ((hpb x).1 h) (by rw [hxa]; exact Relation.ReflTransGen.refl)
      have h2 : (x != a) = false := by simp [hxa]
      rw [h2]
      exact Bool.eq_false_iff.2 h1
    · have h1 : pb x = true := (hpb x).2 (fun hdes => hxa ((hSBdesc x hx).1 hdes))
      have h2 : (x != a) = true := by simp [hxa]
      rw [h1, h2]
  have hpbb : pb b = true := (hpb b).2 hnr
  have hwdecomp : w.items p = LA.filter pb ++ b :: (stackList t b ++ RB.filter pb) := by
    rw [hwitems, hitems]
    rw [List.filter_append, List.filter_append, List.filter_cons, if_pos hpbb, hSBf]
    simp
  have hanotf : ∀ (Z : List CardId), a ∉ Z.filter pb := by
    intro Z hmem
    exact hpba (List.mem_filter.1 hmem).2
  have hanotS : a ∉ stackList t b := by
    rw [← hSBstack]
    intro hmem
    exact (hndSB.mem_erase_iff.1 hmem).1 rfl
  have hbnotf : b ∉ LA.filter pb := fun hmem => hbLA (List.mem_filter.1 hmem).1
  have hanotw : ∀ q, a ∉ w.items q := by
    intro q hmem
    exact (hwmem q a).1 hmem |>.2 (descList_singleton.2 Relation.ReflTransGen.refl)
  -- facts about w
  have hwaso : (w.card a).stacked_on = none := by rw [(hfw a).1]; exact haso
  have hwbp : (w.card b).pile = some p := by
    rw [hwpres b (fun h => hnr (descList_singleton.1 h))]
    exact hbp
  have hwpin : p ∈ w.piles := by rw [hplw]; exact hpin
  have hwSb : stackList w b = stackList t b := stackList_eq_of_fields hfw b
  have hrdw : RankData w rk N := rankData_congr_of_fields hfw hrd
  have hokw : StackOk w := StackOk_congr hfw hok
  have hwfw : StacksWf w := StacksWf_congr hfw hwf
  -- splice
  have hsp := spliceInsert_mid (LA.filter pb) (stackList t b) (RB.filter pb) b a
  obtain ⟨t4, ht4⟩ :
      ∃ t4, t4 = (w.setItems p (LA.filter pb ++ b ::
          (stackList t b ++ a :: RB.filter pb))).setCard a
        { w.card a with pile := some p } := ⟨_, rfl⟩
  have hf4 : StackFieldsEq w t4 := by
    rw [ht4]
    intro z
    by_cases hz : z = a <;> simp [GameState.setCard, GameState.setItems, hz]
  have hf04 : StackFieldsEq t t4 := StackFieldsEq_trans hfw hf4
  have hpl4 : t4.piles = w.piles := by rw [ht4]; rfl
  have hnid4 : t4.nextId = w.nextId := by rw [ht4]; rfl
  have hit4p : t4.items p = LA.filter pb ++ b :: (stackList t b ++ a :: RB.filter pb) := by
    rw [ht4, setCard_items, setItems_items_self]
  have hit4o : ∀ q, q ≠ p → t4.items q = w.items q := by
    intro q hq
    rw [ht4, setCard_items, setItems_items_ne _ _ hq]
  have ha4pile : (t4.card a).pile = some p := by rw [ht4, setCard_card_self]
  have h4x : ∀ z, z ≠ a → t4.card z = w.card z := by
    intro z hz
    rw [ht4, setCard_card_ne _ _ hz, setItems_card]
  have hpermT : List.Perm (LA.filter pb ++ b :: (stackList t b ++ a :: RB.filter pb))
      (a :: (LA.filter pb ++ b :: (stackList t b ++ RB.filter pb))) := by
    have p3 : List.Perm (((LA.filter pb ++ [b]) ++ stackList t b) ++ a :: RB.filter pb)
        (a :: (((LA.filter pb ++ [b]) ++ stackList t b) ++ RB.filter pb)) :=
      List.perm_middle
    have p2 : LA.filter pb ++ b :: (stackList t b ++ a :: RB.filter pb)
        = ((LA.filter pb ++ [b]) ++ stackList t b) ++ a :: RB.filter pb := by simp
    have p4 : a :: (((LA.filter pb ++ [b]) ++ stackList t b) ++ RB.filter pb)
        = a :: (LA.filter pb ++ b :: (stackList t b ++ RB.filter pb)) := by simp
    rw [← p2, p4] at p3
    exact p3
  have hmem4p : ∀ z, z ∈ t4.items p ↔ z = a ∨ z ∈ w.items p := by
    intro z
    rw [hit4p, hwdecomp]
    rw [hpermT.mem_iff]
    simp
  have hin4 : ItemsNodup t4 := by
    intro q
    by_cases hq : q = p
    · subst hq
      rw [hit4p]
      refine (hpermT.nodup_iff).2 (List.nodup_cons.2 ⟨?_, ?_⟩)
      · rw [← hwdecomp]; exact hanotw q
      · rw [← hwdecomp]; exact hinw q
    · rw [hit4o q hq]; exact hinw q
  have hpo4 : PileOk t4 := by
    intro z q
    by_cases hz : z = a
    · subst hz
      constructor
      · constructor
        · intro hmem
          by_cases hq : q = p
          · rw [hq, ha4pile]
          · rw [hit4o q hq] at hmem
            exact absurd hmem (hanotw q)
        · intro hpil
          rw [ha4pile] at hpil
          have hq : q = p := (Option.some_inj.1 hpil).symm
          subst hq
          rw [hit4p]
          exact List.mem_append_right _ (List.mem_cons_of_mem b
            (List.mem_append_right _ (List.mem_cons_self z _)))
      · intro hpil
        rw [ha4pile] at hpil
        rw [hpl4, hplw, ← Option.some_inj.1 hpil]
        exact hpin
    · have hcard := h4x z hz
      constructor
      · rw [hcard]
        by_cases hq : q = p
        · subst hq
          constructor
          · intro hm
            rcases (hmem4p z).1 hm with h1 | h1
            · exact absurd h1 hz
            · exact (hpow z q).1.1 h1
          · intro h1
            exact (hmem4p z).2 (Or.inr ((hpow z q).1.2 h1))
        · rw [hit4o q hq]
          exact (hpow z q).1
      · rw [hcard, hpl4]
        exact (hpow z q).2
  have hrd4 : RankData t4 rk N := rankData_congr_of_fields hf04 hrd
  have hok4 : StackOk t4 := StackOk_congr hf04 hok
  have hwf4 : StacksWf t4 := StacksWf_congr hf04 hwf
  have hanotA : a ∉ LA.filter pb ++ b :: stackList t b := by
    intro hmem
    rcases List.mem_append.1 hmem with h1 | h1
    · exact hanotf LA h1
    · rcases List.mem_cons.1 h1 with h2 | h2
      · exact hab h2
      · exact hanotS h2
  rcases hstk : (t.card a).stack with _ | l
  · have heq : insert_stack_into_pile_after (m+1) t a b = some t4 := by
      rw [insert_stack_into_pile_after, ht4]
      have hstkw : (w.card a).stack = none := by rw [(hfw a).2]; exact hstk
      simp [hanc, hweq, hwaso, hwbp, hwpin, hwdecomp, hwSb,
        jsIndexOf_split (LA.filter pb) (stackList t b ++ RB.filter pb) b hbnotf,
        hsp, hstkw, setItems_card, setCard_card_self]
    refine ⟨t4, LA.filter pb, RB.filter pb, heq, hf04,
      hpl4.trans hplw, hnid4.trans hnidw, hpo4, hin4, hit4p, hbnotf, hanotf LA,
      hanotf RB, ha4pile, ?_⟩
    intro z hnz
    have hza : z ≠ a := fun h => hnz (h ▸ Relation.ReflTransGen.refl)
    rw [h4x z hza, hwpres z (fun h => hnz (descList_singleton.1 h))]
  · have hstackl : stackList t a = l := by rw [stackList, hstk]; rfl
    have hlnd : l.Nodup := (hwf a l hstk).2
    have hchildrel : ∀ x ∈ l, stRel t x a := by
      intro x hx
      exact (hok x a).2 (hstackl ▸ hx)
    have hitems4 : t4.items p = (LA.filter pb ++ b :: stackList t b) ++ a :: RB.filter pb := by
      rw [hit4p]
      simp
    obtain ⟨u, T, hequ, hfu, hplu, hnidu, hpou, hinu, hitu, hmemu, hothu, hpfu⟩ :=
      insertChildrenGo_clean m (insert_clean rk N m) l t4 a p
        (LA.filter pb ++ b :: stackList t b) (RB.filter pb)
        hrd4 hok4 hwf4 hpo4 hin4 hlnd
        (by
          intro x hx
          rw [stRel, (hf04 x).1]
          exact hchildrel x hx)
        (by
          intro x hx y hy
          have hy' : Desc t x y := (desc_congr_of_fields hf04 x y).1 hy
          have hya : Desc t a y := Relation.ReflTransGen.tail hy' (hchildrel x hx)
          have hyne : y ≠ a := by
            intro h
            have h2 : Desc t x a := h ▸ hy'
            exact absurd (rank_le_of_desc hrd h2) (not_le.2 (hrd.1 x a (hchildrel x hx)))
          rw [h4x y hyne]
          exact hwnone y (descList_singleton.2 hya))
        (by
          intro x hx
          have hxN : x < N := hrd.2.2 a x (hstackl ▸ hx)
          have h1 := downcnt_lt hxN (hrd.1 x a (hchildrel x hx))
          have h2 := downcnt_le rk N a
          omega)
        ha4pile (by rw [hpl4, hplw]; exact hpin) hitems4 hanotA
    have heq : insert_stack_into_pile_after (m+1) t a b =
        insertChildrenGo (insert_stack_into_pile_after m) t4 l a := by
      rw [insert_stack_into_pile_after, ht4]
      have hstkw : (w.card a).stack = some l := by rw [(hfw a).2]; exact hstk
      simp [hanc, hweq, hwaso, hwbp, hwpin, hwdecomp, hwSb,
        jsIndexOf_split (LA.filter pb) (stackList t b ++ RB.filter pb) b hbnotf,
        hsp, hstkw, setItems_card, setCard_card_self]
    refine ⟨u, LA.filter pb, T, by rw [heq]; exact hequ, StackFieldsEq_trans hf04 hfu,
      (hplu.trans hpl4).trans hplw, (hnidu.trans hnid4).trans hnidw, hpou, hinu, ?_,
      hbnotf, hanotf LA, ?_, ?_, ?_⟩
    · rw [hitu]
      simp
    · intro hmem
      rcases hmemu a hmem with h1 | ⟨d, hd, hdz⟩
      · exact hanotf RB h1
      · have hdz' : Desc t d a := (desc_congr_of_fields hf04 d a).1 hdz
        exact absurd (rank_le_of_desc hrd hdz') (not_le.2 (hrd.1 d a (hchildrel d hd)))
    · rw [hpfu a (by
        rintro ⟨d, hd, hdz⟩
        have hdz' : Desc t d a := (desc_congr_of_fields hf04 d a).1 hdz
        exact absurd (rank_le_of_desc hrd hdz') (not_le.2 (hrd.1 d a (hchildrel d hd))))]
      exact ha4pile
    · intro z hnz
      have hza : z ≠ a := fun h => hnz (h ▸ Relation.ReflTransGen.refl)
      have hnl : ¬ (∃ d ∈ l, Desc t4 d z) := by
        rintro ⟨d, hd, hdz⟩
        have hdz' : Desc t d z := (desc_congr_of_fields hf04 d z).1 hdz
        exact hnz (Relation.ReflTransGen.tail hdz' (hchildrel d hd))
      rw [hpfu z hnl, h4x z hza, hwpres z (fun h => hnz (descList_singleton.1 h))]

theorem PileOk_transfer {t u : GameState}
    (hpile : ∀ x, (u.card x).pile = (t.card x).pile)
    (hitems : u.items = t.items) (hpiles : u.piles = t.piles)
    (h : PileOk t) : PileOk u := by
  intro c q
  rw [hpile c, hitems, hpiles]
  exact h c q

theorem ItemsNodup_transfer {t u : GameState} (hitems : u.items = t.items)
    (h : ItemsNodup t) : ItemsNodup u := by
  intro q
  rw [hitems]
  exact h q

theorem count_one_and_index (L2 S2 T : List CardId) (a b : CardId)
    (hbL2 : b ∉ L2) (haL2 : a ∉ L2) (hab : a ≠ b) (haS : a ∉ S2) (haT : a ∉ T) :
    (L2 ++ b :: (S2 ++ a :: T)).count a = 1 ∧
    jsIndexOf (L2 ++ b :: (S2 ++ a :: T)) a
      = jsIndexOf (L2 ++ b :: (S2 ++ a :: T)) b + 1 + (S2.length : Int) := by
  constructor
  · have h0L : L2.count a = 0 := List.count_eq_zero_of_not_mem haL2
    have h0S : S2.count a = 0 := List.count_eq_zero_of_not_mem haS
    have h0T : T.count a = 0 := List.count_eq_zero_of_not_mem haT
    simp [List.count_append, List.count_cons, h0L, h0S, h0T, hab]
  · have hb : jsIndexOf (L2 ++ b :: (S2 ++ a :: T)) b = (L2.length : Int) :=
      jsIndexOf_split L2 (S2 ++ a :: T) b hbL2
    have hanotX : a ∉ L2 ++ b :: S2 := by
      intro hmem
      rcases List.mem_append.1 hmem with h1 | h1
      · exact haL2 h1
      · rcases List.mem_cons.1 h1 with h2 | h2
        · exact hab h2
        · exact haS h2
    have hform : L2 ++ b :: (S2 ++ a :: T) = (L2 ++ b :: S2) ++ a :: T := by simp
    have ha : jsIndexOf (L2 ++ b :: (S2 ++ a :: T)) a = ((L2 ++ b :: S2).length : Int) := by
      rw [hform]
      exact jsIndexOf_split (L2 ++ b :: S2) T a hanotX
    rw [ha, hb]
    rw [List.length_append, List.length_cons]
    push_cast
    ring

theorem unstack_card_phaseA {s : GameState} (a : CardId)
    (hok : StackOk s) (hwf : StacksWf s) :
    ∃ s1, _unstack_card s a = some s1 ∧
      s1.items = s.items ∧ s1.piles = s.piles ∧ s1.nextId = s.nextId ∧
      (∀ x, (s1.card x).pile = (s.card x).pile) ∧
      (s1.card a).stacked_on = none ∧
      (∀ x, x ≠ a → (s1.card x).stacked_on = (s.card x).stacked_on) ∧
      (∀ y, y ≠ a → stackList s1 y = (stackList s y).erase a) ∧
      (∀ y x, x ∈ stackList s1 y → x ∈ stackList s y) ∧
      StackOk s1 ∧ StacksWf s1 := by
  cases hq0 : (s.card a).stacked_on with
  | none =>
    have hnm : ∀ y, a ∉ stackList s y := by
      intro y hy
      have := (hok a y).2 hy
      rw [hq0] at this
      exact Option.noConfusion this
    refine ⟨s, unstack_card_of_unstacked hq0, rfl, rfl, rfl, fun _ => rfl, hq0,
      fun _ _ => rfl, ?_, fun _ _ h => h, hok, hwf⟩
    intro y _
    rw [List.erase_of_not_mem (hnm y)]
  | some q0 =>
    obtain ⟨s1, hu1⟩ := unstack_card_total hok a
    obtain ⟨hit, hpl, hni, _, _, hpile, _, hcnone, hsone, hqstack, hostack⟩ :=
      unstack_card_some_spec hq0 hu1
    obtain ⟨hul, _, _, _, _, _, _⟩ := unstack_card_unstackLike hu1
    obtain ⟨hok1, hwf1⟩ := hul.1 hok hwf
    have hnm : ∀ y, y ≠ q0 → a ∉ stackList s y := by
      intro y hy hmem
      have := (hok a y).2 hmem
      rw [hq0] at this
      exact hy (Option.some_inj.1 this).symm
    refine ⟨s1, hu1, hit, hpl, hni, hpile, hcnone, hsone, ?_, hul.2.2.2.1, hok1, hwf1⟩
    intro y hy
    by_cases hyq : y = q0
    · subst hyq
      rw [stackList, hqstack]
      split
      · rename_i hemp
        rw [hemp]
        rfl
      · rfl
    · rw [stackList, hostack y hyq, List.erase_of_not_mem (hnm y hyq)]
      rfl

/-- C4 (amended, part 1: the general positive case).  On a well-formed
state (round-tripping stack links, nonempty/nodup stacks, nodup pile
item lists, consistent pile back-references, acyclic stacking, ids
below `nextId`), stacking any card `a` on a distinct card `b` that sits
in pile `p` with its stack block laid out directly after it, and then
unstacking `a`, succeeds and leaves `a` exactly once in `p`, directly
after `b` and `b`'s remaining stack block (its previous block with `a`
removed); `a`'s pile is `p` and the index equation of the spec holds
for the remaining block.  The sole extra hypothesis beyond
well-formedness and the contiguity the claim's wording presupposes is
that `a` is not a (strict or reflexive) stacking ancestor of `b` — the
configuration refuted by the counterexample.  The fuel covers the
bounded ancestor walks. -/
theorem stack_then_unstack_position_amended
    (s : GameState) (n : Nat) (a b : CardId) (p : PileId) (L R : List CardId)
    (hok : StackOk s) (hwf : StacksWf s) (hin : ItemsNodup s) (hpo : PileOk s)
    (hrok : RankOk s) (hid : IdOk s)
    (hab : a ≠ b)
    (hbp : (s.card b).pile = some p)
    (hsplit : s.items p = L ++ b :: stackList s b ++ R)
    (hnr : ¬ Relation.ReflTransGen (stRel s) b a)
    (hn : 2 * s.nextId + 6 ≤ n) :
    ∃ r1 u L2 T,
      stack_card_on_card n s a b = some (.ok r1) ∧
      unstack_card n r1 a = some u ∧
      stackList u b = (stackList s b).erase a ∧
      u.items p = L2 ++ b :: (stackList u b ++ a :: T) ∧
      b ∉ L2 ∧ a ∉ L2 ∧ a ∉ stackList u b ∧ a ∉ T ∧
      (u.items p).count a = 1 ∧
      jsIndexOf (u.items p) a
        = jsIndexOf (u.items p) b + 1 + ((stackList u b).length : Int) ∧
      (u.card a).pile = some p := by
  obtain ⟨rk, hrk⟩ := hrok
  have hrd : RankData s rk s.nextId := by
    refine ⟨hrk, ?_, ?_⟩
    · intro y x hyx
      by_contra hge
      exact (hid x (Nat.le_of_not_lt hge) y).1 hyx
    · intro y x hyx
      by_contra hge
      exact (hid x (Nat.le_of_not_lt hge) y).2 hyx
  obtain ⟨m, rfl⟩ : ∃ m, n = m + 1 := ⟨n - 1, by omega⟩
  have hm : 2 * s.nextId + 4 ≤ m := by omega
  obtain ⟨s1, hu1, hit1, hpl1, hni1, hpile1, haso1, hso1, hsl1, hshr1, hok1, hwf1⟩ :=
    unstack_card_phaseA a hok hwf
  have hrd1 : RankData s1 rk s.nextId := by
    refine ⟨?_, ?_, ?_⟩
    · intro x y hxy
      rw [stRel] at hxy
      by_cases hx : x = a
      · rw [hx, haso1] at hxy
        exact absurd hxy (by simp)
      · rw [hso1 x hx] at hxy
        exact hrd.1 x y hxy
    · intro y x hyx
      by_cases hy : y = a
      · rw [hy, haso1] at hyx
        exact absurd hyx (by simp)
      · rw [hso1 y hy] at hyx
        exact hrd.2.1 y x hyx
    · intro y x hyx
      exact hrd.2.2 y x (hshr1 y x hyx)
  have hmono1 : ∀ x y, stRel s1 x y → stRel s x y := by
    intro x y hxy
    rw [stRel] at hxy ⊢
    by_cases hx : x = a
    · rw [hx, haso1] at hxy
      exact absurd hxy (by simp)
    · rwa [hso1 x hx] at hxy
  have hnr1 : ¬ Desc s1 a b := fun h => hnr (Relation.ReflTransGen.mono hmono1 h)
  have hpo1 : PileOk s1 := PileOk_transfer hpile1 hit1 hpl1 hpo
  have hin1 : ItemsNodup s1 := ItemsNodup_transfer hit1 hin
  have hbp1 : (s1.card b).pile = some p := by rw [hpile1 b]; exact hbp
  have hsplit1 : s1.items p = L ++ b :: stackList s b ++ R := by
    rw [hit1]; exact hsplit
  have hbL : b ∉ L := by
    have hnd := hin p
    rw [hsplit] at hnd
    exact fun hb =>
      (List.disjoint_of_nodup_append hnd.of_append_left) hb (List.mem_cons_self b _)
  have hSb1 : stackList s1 b = (stackList s b).erase a := hsl1 b (Ne.symm hab)
  have hSBdesc1 : ∀ x ∈ stackList s b, Desc s1 a x ↔ x = a := by
    intro x hx
    constructor
    · intro hdes
      by_contra hxa
      rcases Relation.ReflTransGen.cases_head hdes with h1 | ⟨m2, hm1, hm2⟩
      · exact hxa h1
      · have hxso : (s1.card x).stacked_on = some b := by
          rw [hso1 x hxa]
          exact (hok x b).2 hx
        rw [stRel, hxso] at hm1
        have hm2b : m2 = b := (Option.some_inj.1 hm1).symm
        rw [hm2b] at hm2
        exact hnr1 hm2
    · intro h
      rw [h]
      exact Relation.ReflTransGen.refl
  obtain ⟨v, L2, T0, hins1, hfv, hplv, hnidv, hpov, hinv, hitv, hbL2, haL2, haT0, havp, hpfv⟩ :=
    insert_top_clean m s1 a b p L (stackList s b) R hrd1 hok1 hwf1 hpo1 hin1
      haso1 hnr1 hbp1 hsplit1 hbL hSBdesc1 hSb1.symm hab hm
  have hsc : stack_card_on_card (m+1) s a b = some (.ok (_stack_cards v a b)) := by
    simp [stack_card_on_card, hab, hu1, hbp1, hins1]
  have hokv : StackOk v := StackOk_congr hfv hok1
  have hwfv : StacksWf v := StacksWf_congr hfv hwf1
  have hvaso : (v.card a).stacked_on = none := by
    rw [(hfv a).1]; exact haso1
  obtain ⟨g1, g2, g3, g4, g5, g6, g7, g8, g9, g10⟩ := stack_cards_fields v a b
  obtain ⟨⟨hokr, hwfr⟩, _⟩ := stack_cards_engineInv hokv hwfv hvaso
  have hpor : PileOk (_stack_cards v a b) := PileOk_transfer g9 g5 g6 hpov
  have hinr : ItemsNodup (_stack_cards v a b) := ItemsNodup_transfer g5 hinv
  obtain ⟨S', hS'⟩ : ∃ S', S' = (stackList s b).erase a := ⟨_, rfl⟩
  have hndSb : (stackList s b).Nodup := stackList_nodup hwf b
  have hanotS' : a ∉ S' := by
    rw [hS']
    intro h
    exact ((List.Nodup.mem_erase_iff hndSb).1 h).1 rfl
  have hr1bstack : ((_stack_cards v a b).card b).stack = some (S' ++ [a]) := by
    rw [g3, stackList_eq_of_fields hfv b, hSb1, hS']
  have hrap : ((_stack_cards v a b).card a).pile = some p := by
    rw [g9 a]; exact havp
  obtain ⟨u1, hu2⟩ := unstack_card_total hokr a
  obtain ⟨hit2, hpl2, hni2, hcd2, hpg2, hpile2, hfc2, hanone2, hso2, hbst2, hstk2⟩ :=
    unstack_card_some_spec g1 hu2
  have hrlb : stackList (_stack_cards v a b) b = S' ++ [a] := by
    rw [stackList, hr1bstack]
    rfl
  have herase : (S' ++ [a]).erase a = S' := by
    rw [List.erase_append_right _ hanotS', List.erase_cons_head, List.append_nil]
  rw [hrlb, herase] at hbst2
  have hSbu1 : stackList u1 b = S' := by
    rw [stackList, hbst2]
    split
    · rename_i hemp
      rw [hemp]
      rfl
    · rfl
  obtain ⟨hul2, _, _, _, _, _, _⟩ := unstack_card_unstackLike hu2
  obtain ⟨hoku1, hwfu1⟩ := hul2.1 hokr hwfr
  have hpou1 : PileOk u1 := PileOk_transfer hpile2 hit2 hpl2 hpor
  have hinu1 : ItemsNodup u1 := ItemsNodup_transfer hit2 hinr
  have hso_u1 : ∀ x, x ≠ a → (u1.card x).stacked_on = (s1.card x).stacked_on := by
    intro x hx
    rw [hso2 x hx, g2 x hx, (hfv x).1]
  have hstk_u1 : ∀ y, y ≠ b → (u1.card y).stack = (s1.card y).stack := by
    intro y hy
    rw [hstk2 y hy, g4 y hy, (hfv y).2]
  have hrdu1 : RankData u1 rk s.nextId := by
    refine ⟨?_, ?_, ?_⟩
    · intro x y hxy
      rw [stRel] at hxy
      by_cases hx : x = a
      · rw [hx, hanone2] at hxy
        exact absurd hxy (by simp)
      · rw [hso_u1 x hx] at hxy
        exact hrd1.1 x y hxy
    · intro y x hyx
      by_cases hy : y = a
      · rw [hy, hanone2] at hyx
        exact absurd hyx (by simp)
      · rw [hso_u1 y hy] at hyx
        exact hrd1.2.1 y x hyx
    · intro y x hyx
      by_cases hy : y = b
      · rw [hy, hSbu1, hS'] at hyx
        exact hrd.2.2 b x (List.erase_subset _ _ hyx)
      · rw [stackList, hstk_u1 y hy] at hyx
        exact hrd1.2.2 y x hyx
  have hmono2 : ∀ x y, stRel u1 x y → stRel s1 x y := by
    intro x y hxy
    rw [stRel] at hxy ⊢
    by_cases hx : x = a
    · rw [hx, hanone2] at hxy
      exact absurd hxy (by simp)
    · rwa [hso_u1 x hx] at hxy
  have hnru1 : ¬ Desc u1 a b := fun h => hnr1 (Relation.ReflTransGen.mono hmono2 h)
  have hu1ap : (u1.card a).pile = some p := by
    rw [hpile2 a]; exact hrap
  have hu1bp : (u1.card b).pile = some p := by
    rw [hpile2 b, g9 b, hpfv b hnr1]
    exact hbp1
  have hitu1 : u1.items p = L2 ++ b :: (S' ++ a :: T0) := by
    rw [hit2, g5, hitv, hSb1, ← hS']
  by_cases hS'nil : S' = []
  · rw [if_pos hS'nil] at hbst2
    have hfin : unstack_card (m+1) (_stack_cards v a b) a = some u1 := by
      simp [unstack_card, hrap, g1, hu2, hbst2]
    have hcnt := count_one_and_index L2 S' T0 a b hbL2 haL2 hab hanotS' haT0
    refine ⟨_stack_cards v a b, u1, L2, T0, hsc, hfin, ?_, ?_, hbL2, haL2, ?_, haT0,
      ?_, ?_, hu1ap⟩
    · rw [hSbu1, hS']
    · rw [hSbu1]
      exact hitu1
    · rw [hSbu1]
      exact hanotS'
    · rw [hitu1]
      exact hcnt.1
    · rw [hitu1, hSbu1]
      exact hcnt.2
  · rw [if_neg hS'nil] at hbst2
    have hSBdesc2 : ∀ x ∈ S', Desc u1 a x ↔ x = a := by
      intro x hx
      constructor
      · intro hdes
        by_contra hxa
        rcases Relation.ReflTransGen.cases_head hdes with h1 | ⟨m2, hm1, hm2⟩
        · exact hxa h1
        · have hxso : (u1.card x).stacked_on = some b := by
            refine (hoku1 x b).2 ?_
            rw [hSbu1]
            exact hx
          rw [stRel, hxso] at hm1
          have hm2b : m2 = b := (Option.some_inj.1 hm1).symm
          rw [hm2b] at hm2
          exact hnru1 hm2
      · intro h
        rw [h]
        exact Relation.ReflTransGen.refl
    have hSBstack2 : S'.erase a = stackList u1 b := by
      rw [List.erase_of_not_mem hanotS', hSbu1]
    have hitu1' : u1.items p = L2 ++ b :: S' ++ (a :: T0) := by
      rw [hitu1]
      simp
    obtain ⟨u, L3, T, hins2, hfu, hplu, hnidu, hpou2, hinu2, hitu2, hbL3, haL3, haT, huap,
        hpfu2⟩ :=
      insert_top_clean m u1 a b p L2 S' (a :: T0) hrdu1 hoku1 hwfu1 hpou1 hinu1
        hanone2 hnru1 hu1bp hitu1' hbL2 hSBdesc2 hSBstack2 hab hm
    have hlen2 : S'.length ≠ 0 := fun h => hS'nil (List.length_eq_zero.1 h)
    have hfin : unstack_card (m+1) (_stack_cards v a b) a = some u := by
      simp [unstack_card, hrap, g1, hu2, hbst2, hlen2, hins2]
      intro h
      exact absurd h hS'nil
    have hSbu : stackList u b = S' := by
      rw [stackList_eq_of_fields hfu b, hSbu1]
    have hitem_final : u.items p = L3 ++ b :: (S' ++ a :: T) := by
      rw [hitu2, hSbu1]
    have hcnt := count_one_and_index L3 S' T a b hbL3 haL3 hab hanotS' haT
    refine ⟨_stack_cards v a b, u, L3, T, hsc, hfin, ?_, ?_, hbL3, haL3, ?_, haT,
      ?_, ?_, huap⟩
    · rw [hSbu, hS']
    · rw [hSbu]
      exact hitem_final
    · rw [hSbu]
      exact hanotS'
    · rw [hitem_final]
      exact hcnt.1
    · rw [hitem_final, hSbu]
      exact hcnt.2

/-- Witness for the amended C4 theorem at a concrete input: in
`exFreeCard`, card 0 is unstacked and card 1 is alone in pile "p" with
an empty stack block; stacking 0 on 1 and unstacking it leaves the pile
`[1, 0]` with 0 exactly once directly after 1. -/
theorem stack_then_unstack_position_amended_witness :
    ∃ r1 u L2 T,
      stack_card_on_card 10 exFreeCard 0 1 = some (.ok r1) ∧
      unstack_card 10 r1 0 = some u ∧
      stackList u 1 = (stackList exFreeCard 1).erase 0 ∧
      u.items "p" = L2 ++ 1 :: (stackList u 1 ++ 0 :: T) ∧
      (1 : CardId) ∉ L2 ∧ (0 : CardId) ∉ L2 ∧ (0 : CardId) ∉ stackList u 1 ∧
      (0 : CardId) ∉ T ∧
      (u.items "p").count 0 = 1 ∧
      jsIndexOf (u.items "p") 0
        = jsIndexOf (u.items "p") 1 + 1 + ((stackList u 1).length : Int) ∧
      (u.card 0).pile = some "p" := by
  have hd1 : (default : Card).stack = none := rfl
  have hd2 : (default : Card).stacked_on = none := rfl
  have hd3 : (default : Card).pile = none := rfl
  refine stack_then_unstack_position_amended exFreeCard 10 0 1 "p" [] []
    ?_ ?_ ?_ ?_ ?_ ?_ (by decide) rfl rfl ?_ (by decide)
  · intro x y
    rcases x with _ | _ | x <;> rcases y with _ | _ | y <;>
      simp [exFreeCard, stackList, hd1, hd2]
  · intro y l hl
    rcases y with _ | _ | y <;> simp [exFreeCard, hd1] at hl
  · intro q
    by_cases hq : q = "p" <;> simp [exFreeCard, hq]
  · intro c q
    rcases c with _ | _ | c
    · by_cases hq : q = "p" <;> simp [exFreeCard, hq]
    · by_cases hq : q = "p" <;> simp [exFreeCard, hq]
      exact fun h => hq h.symm
    · by_cases hq : q = "p" <;> simp [exFreeCard, hq, hd3]
  · refine ⟨fun _ => 0, ?_⟩
    intro x y h
    rw [stRel] at h
    rcases x with _ | _ | x <;> simp [exFreeCard, hd2] at h
  · intro x hx y
    rcases y with _ | _ | y
    · exact ⟨by simp [exFreeCard], List.not_mem_nil x⟩
    · exact ⟨by simp [exFreeCard], List.not_mem_nil x⟩
    · exact ⟨by simp [exFreeCard, hd2], List.not_mem_nil x⟩
  · intro h
    rcases Relation.ReflTransGen.cases_head h with h1 | ⟨c, hc, -⟩
    · exact absurd h1 (by decide)
    · rw [stRel] at hc
      simp [exFreeCard] at hc
